import Mathlib

/-!
# Verification of the ape network-selector resolution engine and plugin registry

This file is a shallow embedding, in Lean 4, of the two source files under
analysis:

* `src/ape/managers/networks.py` — the `NetworkManager` class: selector
  parsing (`get_provider_from_choice`), selector enumeration
  (`get_network_choices`), custom providers (`create_custom_provider`),
  fork derivation (`fork`), and the helpers `_is_custom_network` and
  `_validate_filter`.
* `src/ape/plugins/__init__.py` — the `PluginManager` class: one-time plugin
  registration (`_register_plugins`), contribution validation (`valid_impl`,
  `_validate_plugin`, `_warn_not_fully_implemented_error`) and name cleaning
  (`clean_plugin_name`).

Python strings are embedded as Lean `String`; all string surgery performed by
the source (`str.split(":")`, `":".join`, `startswith`, `endswith`, `in`,
`replace`) is embedded by executable functions over `List Char` defined below,
with the exact Python semantics (e.g. `"".split(":") == [""]`, `replace`
replaces every occurrence).

The registry hierarchy (`EcosystemAPI` / `NetworkAPI` objects) is embedded by
plain structures carrying exactly the data the two source files consult: the
ecosystem name, its default-network name and its networks; the network name
and its provider names.  Operations of `EcosystemAPI`/`NetworkAPI` that the
two files call but whose bodies live outside the analysed sources
(`get_network`, `default_network`, `get_provider`, `use_provider`,
`custom_network`) are modelled from the spec, as marked in their doc comments.
-/

/-! ## Python string primitives -/

/-- `strStarts pat l` embeds Python `str.startswith`: `pat` is a prefix of `l`. -/
def strStarts : List Char → List Char → Bool
  | [], _ => true
  | _ :: _, [] => false
  | a :: as, b :: bs => a = b && strStarts as bs

/-- `strEnds pat l` embeds Python `str.endswith`: `pat` is a suffix of `l`. -/
def strEnds (pat l : List Char) : Bool :=
  strStarts pat.reverse l.reverse

/-- Embeds Python `":" in s` on the character list of `s`. -/
def containsColon : List Char → Bool
  | [] => false
  | c :: rest => c = ':' || containsColon rest

/-- Embeds Python `s.split(":")`, on character lists.  Like Python (and unlike
a fold that drops empties), splitting the empty string gives `[[]]` and empty
segments are kept. -/
def splitColonChars : List Char → List (List Char)
  | [] => [[]]
  | c :: rest =>
    if c = ':' then [] :: splitColonChars rest
    else
      match splitColonChars rest with
      | [] => [[c]]
      | h :: t => (c :: h) :: t

/-- Embeds Python `":".join`, on character lists. -/
def joinColonChars : List (List Char) → List Char
  | [] => []
  | [x] => x
  | x :: xs => x ++ ':' :: joinColonChars xs

/-- Embeds Python `s.split(":")` for `String`. -/
def pySplitColon (s : String) : List String :=
  (splitColonChars s.data).map String.mk

/-- Embeds Python `":".join(l)` for `String`. -/
def joinColon (l : List String) : String :=
  String.mk (joinColonChars (l.map String.data))

/-- Embeds Python `s.replace(a, b)` for single characters. -/
def replaceCharList (a b : Char) (l : List Char) : List Char :=
  l.map fun c => if c = a then b else c

/-- Embeds Python `name in collection` for a list of strings. -/
def containsStr : List String → String → Bool
  | [], _ => false
  | x :: rest, s => x = s || containsStr rest s

/-! ## Nested key-value settings trees

Provider settings in the source are Python dicts whose values are strings,
integers or nested dicts.  `Val` embeds such a value; a dict is a `nil`/`cons`
chain of key-value entries in insertion order. -/

/-- A Python value as used in provider settings: a string, an integer, or a
dict embedded as an ordered entry chain (`nil` = `{}`). -/
inductive Val where
  | str : String → Val
  | int : Int → Val
  | nil : Val
  | cons : String → Val → Val → Val
deriving DecidableEq, Repr

/-- `true` exactly for values that are dicts (possibly empty). -/
def Val.isDictVal : Val → Bool
  | Val.nil => true
  | Val.cons _ _ _ => true
  | _ => false

/-- Well-formed settings value: every `cons` tail is again a dict chain and
every nested value is well formed. -/
def Val.wf : Val → Bool
  | Val.cons _ v rest => v.wf && rest.wf && rest.isDictVal
  | _ => true

/-- Dict lookup of one key (first matching entry). -/
def dictLookup : Val → String → Option Val
  | Val.cons k v rest, key => if k = key then some v else dictLookup rest key
  | _, _ => none

/-- Lookup of a nested key path. -/
def lookupPath : Val → List String → Option Val
  | v, [] => some v
  | v, k :: rest =>
    match dictLookup v k with
    | some w => lookupPath w rest
    | none => none

mutual

/-- Modelled from the spec: `_dict_overlay` (from `ape.utils.misc`, whose body
is not among the analysed sources) deep-merges the `overlay` tree into the
caller-supplied `mapping` tree: entries only in `overlay` are added, at keys
where both sides hold dicts the merge recurses, and at every other matching
key the caller-supplied `mapping` value wins. -/
def overlayDict : Val → Val → Val
  | m, Val.cons k ov orest => overlayDict (insertOverlay m k ov) orest
  | m, _ => m
termination_by m o => (sizeOf o, sizeOf m)

/-- One `overlay` entry `(k, ov)` merged into the mapping `m`: a fresh key is
appended, two dicts recurse, otherwise the mapping value wins. -/
def insertOverlay : Val → String → Val → Val
  | Val.cons k2 v2 rest, k, ov =>
    if k2 = k then
      Val.cons k2 (if v2.isDictVal && ov.isDictVal then overlayDict v2 ov else v2) rest
    else
      Val.cons k2 v2 (insertOverlay rest k ov)
  | Val.nil, k, ov => Val.cons k ov Val.nil
  | m, _, _ => m
termination_by m _ ov => (sizeOf ov, sizeOf m)

end

/-! ## The ecosystem / network hierarchy -/

/-- A network of an ecosystem: its name and the names of its providers, in
declaration order (the source iterates `network.providers`, a name-keyed
mapping in declaration order). -/
structure Network where
  name : String
  providers : List String
deriving DecidableEq, Repr

/-- An ecosystem: its name, its default-network name, and its networks in
declaration order (the source iterates `ecosystem.networks`, name-keyed in
declaration order). -/
structure Ecosystem where
  name : String
  defaultNetworkName : String
  networks : List Network
deriving DecidableEq, Repr

/-- The state consulted by `NetworkManager`: the registered ecosystems (the
name-keyed mapping `self.ecosystems`, whose key always equals the stored
ecosystem's `name`) and the default-ecosystem name. -/
structure Hierarchy where
  ecosystems : List Ecosystem
  defaultEcosystemName : String
deriving DecidableEq, Repr

/-- A provider handle as produced by resolution: its identity triple plus the
settings it was constructed with. -/
structure Provider where
  ecosystem : String
  network : String
  name : String
  settings : Val
deriving DecidableEq, Repr

/-- Errors raised by the resolution layer (`NetworkError`,
`EcosystemNotFoundError`, `NetworkNotFoundError`, `ProviderNotFoundError`,
`ApeAttributeError`, and a dict `KeyError`). -/
inductive NetErr where
  | ecosystemNotFound : String → NetErr
  | networkNotFound : String → NetErr
  | providerNotFound : String → NetErr
  | networkError : String → NetErr
  | apeAttributeError : String → NetErr
  | keyError : String → NetErr
deriving DecidableEq, Repr

/-- Dict access `self.ecosystems[name]`: the first (unique) ecosystem with the
given name. -/
def findEcosystem (H : Hierarchy) (name : String) : Option Ecosystem :=
  H.ecosystems.find? fun e => e.name = name

/-- `NetworkManager.ecosystem_names` (membership view of the source's set). -/
def Hierarchy.ecosystem_names (H : Hierarchy) : List String :=
  H.ecosystems.map Ecosystem.name

/-- `NetworkManager.network_names` (membership view of the source's set). -/
def Hierarchy.network_names (H : Hierarchy) : List String :=
  H.ecosystems.flatMap fun e => e.networks.map Network.name

/-- `NetworkManager.provider_names` (membership view of the source's set). -/
def Hierarchy.provider_names (H : Hierarchy) : List String :=
  H.ecosystems.flatMap fun e => e.networks.flatMap fun n => n.providers

/-- `NetworkManager.default_ecosystem`: dict access
`self.ecosystems[self.default_ecosystem_name]`, a `KeyError` when absent. -/
def Hierarchy.default_ecosystem (H : Hierarchy) : Except NetErr Ecosystem :=
  match findEcosystem H H.defaultEcosystemName with
  | some e => Except.ok e
  | none => Except.error (NetErr.keyError H.defaultEcosystemName)

/-- `NetworkManager.get_ecosystem`: membership check then dict access. -/
def get_ecosystem (H : Hierarchy) (name : String) : Except NetErr Ecosystem :=
  match findEcosystem H name with
  | some e => Except.ok e
  | none => Except.error (NetErr.ecosystemNotFound name)

/-- `NetworkManager.__getattr__`: attribute-style ecosystem access tolerating
hyphen/underscore respelling.  The source collects the three spellings into a
Python set and returns the first member found in `self.ecosystems`; the set's
iteration order is unspecified, and this embedding fixes the order
(verbatim, dash-to-underscore, underscore-to-dash), which is only consulted
at names where the spellings agree. -/
def getattrEcosystem (H : Hierarchy) (attr_name : String) : Option Ecosystem :=
  match findEcosystem H attr_name with
  | some e => some e
  | none =>
    match findEcosystem H (String.mk (replaceCharList '-' '_' attr_name.data)) with
    | some e => some e
    | none => findEcosystem H (String.mk (replaceCharList '_' '-' attr_name.data))

/-- `EcosystemAPI.get_network`.  Modelled from the spec: any referenced
network name not present in the hierarchy is a resolution error naming the
unknown value (`NetworkNotFoundError`). -/
def Ecosystem.get_network (eco : Ecosystem) (name : String) : Except NetErr Network :=
  match eco.networks.find? (fun n => n.name = name) with
  | some n => Except.ok n
  | none => Except.error (NetErr.networkNotFound name)

/-- `EcosystemAPI.default_network`.  Modelled from the spec: the network named
by the ecosystem's default-network name. -/
def Ecosystem.default_network (eco : Ecosystem) : Except NetErr Network :=
  eco.get_network eco.defaultNetworkName

/-- `NetworkAPI.default_provider`.  Modelled from the spec: the network's
default provider, when unset explicitly, is its first declared provider, and
a network with no providers has none. -/
def Network.default_provider (net : Network) : Option String :=
  net.providers.head?

/-- `NetworkAPI.get_provider`.  Modelled from the spec: an empty or absent
provider name falls back to the network's default provider (Python
`provider_name or self.default_provider`); a missing default or a name not
among the network's providers is a resolution error; otherwise the provider
handle for (ecosystem, network, name) is built with the given settings. -/
def Network.get_provider (net : Network) (ecoName : String)
    (provider_name : Option String) (provider_settings : Val) : Except NetErr Provider :=
  let picked : Option String :=
    match provider_name with
    | some s => if s = "" then net.default_provider else some s
    | none => net.default_provider
  match picked with
  | none => Except.error (NetErr.networkError ("No default provider for network " ++ net.name))
  | some p =>
    if containsStr net.providers p then
      Except.ok { ecosystem := ecoName, network := net.name, name := p, settings := provider_settings }
    else
      Except.error (NetErr.providerNotFound p)

/-! ## Custom networks and custom providers -/

/-- `_is_custom_network` (networks.py:679): the selector is a raw URI scheme
or a colon-free `.ipc` path. -/
def _is_custom_network (value : String) : Bool :=
  strStarts "http://".data value.data
  || strStarts "https://".data value.data
  || strStarts "ws://".data value.data
  || strStarts "wss://".data value.data
  || (strEnds ".ipc".data value.data && !(containsColon value.data))

/-- `NetworkManager.create_custom_provider` (networks.py:209), for the default
`provider_cls = EthereumNodeProvider` (hence the best-guess provider name
`"geth"` when no name is supplied).  The attribute access
`self.ethereum.custom_network` first looks up the ecosystem `"ethereum"`
through `__getattr__` (an `ApeAttributeError` when absent); `custom_network`
itself is modelled from the spec: the `"ethereum"` ecosystem's network named
`"custom"`.  The connection string decides the settings key: an
`http(s)://` URI goes under `"uri"`, an `.ipc` path under `"ipc_path"`, and
any other shape raises a scheme-not-supported `NetworkError`.  The handle's
data-folder and request-header attributes are not consulted by any analysed
code path and are not embedded. -/
def create_custom_provider (H : Hierarchy) (connection_str : String)
    (provider_name : Option String) : Except NetErr Provider :=
  match getattrEcosystem H "ethereum" with
  | none => Except.error (NetErr.apeAttributeError "ethereum")
  | some _eth =>
    let name := provider_name.getD "geth"
    if strStarts "https://".data connection_str.data
        || strStarts "http://".data connection_str.data then
      Except.ok { ecosystem := "ethereum", network := "custom", name := name,
                  settings := Val.cons "uri" (Val.str connection_str) Val.nil }
    else if strEnds ".ipc".data connection_str.data then
      Except.ok { ecosystem := "ethereum", network := "custom", name := name,
                  settings := Val.cons "ipc_path" (Val.str connection_str) Val.nil }
    else
      Except.error (NetErr.networkError ("Scheme for " ++ connection_str ++ " not yet supported."))

/-! ## Selector parsing and resolution -/

/-- Lines 456-464 of `get_provider_from_choice`: split the choice on `:`; when
more than 3 segments result, rejoin the third-and-beyond segments into a
single provider value, and when that value is itself a custom-network
indicator an empty network segment defaults to `"custom"`
(Python `selections[1] = selections[1] or "custom"`). -/
def parseSelections (network_choice : String) : List String :=
  match pySplitColon network_choice with
  | s0 :: s1 :: s2 :: s3 :: rest =>
    let provider_value := joinColon (s2 :: s3 :: rest)
    if _is_custom_network provider_value then
      [s0, if s1 = "" then "custom" else s1, provider_value]
    else
      [s0, s1, provider_value]
  | selections => selections

/-- `NetworkManager.get_provider_from_choice` (networks.py:422).  The source's
1-segment guard `selections == network_choice or len(selections) == 1`
compares a list to a string, which is always `False` in Python 3, so only the
length test is effective and that is what is embedded.  In the 1- and
2-segment branches an empty ecosystem segment becomes
`self.default_ecosystem.name` (the mapping key invariant makes that string
`defaultEcosystemName`) before the membership-checked `get_ecosystem`; in the
3-segment branch an empty ecosystem segment uses `self.default_ecosystem`
directly. -/
def get_provider_from_choice (H : Hierarchy) (network_choice : Option String)
    (provider_settings : Val) : Except NetErr Provider :=
  match network_choice with
  | none => do
    let eco ← H.default_ecosystem
    let net ← eco.default_network
    net.get_provider eco.name none provider_settings
  | some choice =>
    if _is_custom_network choice then
      create_custom_provider H choice none
    else
      match parseSelections choice with
      | [s0] => do
        let eco ← get_ecosystem H (if s0 = "" then H.defaultEcosystemName else s0)
        let net ← eco.default_network
        net.get_provider eco.name none provider_settings
      | [s0, s1] => do
        let eco ← get_ecosystem H (if s0 = "" then H.defaultEcosystemName else s0)
        let net ← eco.get_network (if s1 = "" then eco.defaultNetworkName else s1)
        net.get_provider eco.name none provider_settings
      | [s0, s1, s2] => do
        let eco ← if s0 = "" then H.default_ecosystem else get_ecosystem H s0
        let net ← eco.get_network (if s1 = "" then eco.defaultNetworkName else s1)
        net.get_provider eco.name (some s2) provider_settings
      | _ => Except.error (NetErr.networkError "Invalid network selection.")

/-! ## Enumeration of network choices -/

/-- `_validate_filter` (networks.py:666): every filter entry must be a known
option; the filter list is returned unchanged. -/
def _validate_filter (arg : List String) (options : List String) : Except NetErr (List String) :=
  if arg.all (fun f => containsStr options f) then Except.ok arg
  else Except.error (NetErr.networkError "Unknown option.")

/-- The provider names of `net` surviving the provider filter (an empty filter
keeps all). -/
def survivingProviders (pf : List String) (net : Network) : List String :=
  if pf.isEmpty then net.providers else net.providers.filter fun p => containsStr pf p

/-- The shorthand selectors yielded for one (ecosystem, network, provider)
triple, in source order: `::p` when both the ecosystem and the network are the
defaults, `:n:p` when the ecosystem is the default, `e::p` when the network is
the ecosystem's default, and always `e:n:p`. -/
def providerForms (H : Hierarchy) (eco : Ecosystem) (net : Network) (p : String) : List String :=
  (if eco.name = H.defaultEcosystemName ∧ net.name = eco.defaultNetworkName
   then ["::" ++ p] else [])
  ++ (if eco.name = H.defaultEcosystemName then [":" ++ net.name ++ ":" ++ p] else [])
  ++ (if net.name = eco.defaultNetworkName then [eco.name ++ "::" ++ p] else [])
  ++ [eco.name ++ ":" ++ net.name ++ ":" ++ p]

/-- The selectors yielded while visiting one network: nothing when no provider
survives the filter; otherwise all provider forms, then the network-level
shorthands `:n` (default ecosystem only) and `e:n`. -/
def netChoices (H : Hierarchy) (eco : Ecosystem) (net : Network) (pf : List String) : List String :=
  let providers := survivingProviders pf net
  if providers.isEmpty then []
  else
    providers.flatMap (providerForms H eco net)
    ++ (if eco.name = H.defaultEcosystemName then [":" ++ net.name] else [])
    ++ [eco.name ++ ":" ++ net.name]

/-- The selectors yielded while visiting one ecosystem: its filtered networks
in order, then the bare ecosystem name when at least one filtered network kept
a provider. -/
def ecoChoices (H : Hierarchy) (eco : Ecosystem) (nf pf : List String) : List String :=
  let network_items := if nf.isEmpty then eco.networks
                       else eco.networks.filter fun n => containsStr nf n.name
  if network_items.isEmpty then []
  else
    network_items.flatMap (fun net => netChoices H eco net pf)
    ++ (if network_items.any (fun net => !(survivingProviders pf net).isEmpty)
        then [eco.name] else [])

/-- `NetworkManager.get_network_choices` (networks.py:318): validate the three
filters, then enumerate every shorthand in iteration order.  The source
compares against `self.default_ecosystem.name`, which by the mapping key
invariant is `defaultEcosystemName`. -/
def get_network_choices (H : Hierarchy) (ef nf pf : List String) : Except NetErr (List String) := do
  let ecosystem_filter ← _validate_filter ef H.ecosystem_names
  let network_filter ← _validate_filter nf H.network_names
  let provider_filter ← _validate_filter pf H.provider_names
  let ecosystem_items := if ecosystem_filter.isEmpty then H.ecosystems
                         else H.ecosystems.filter fun e => containsStr ecosystem_filter e.name
  Except.ok (ecosystem_items.flatMap fun eco => ecoChoices H eco network_filter provider_filter)

/-! ## Fork derivation -/

/-- The connection state `fork` consults: the live ecosystem object
(`self.ecosystem`), the connected network's name (`self.network.name`), the
head block number (`self.provider.get_block("latest").number`, an optional
which the source defaults to `0` with `or 0`) and the connection string
(`self.provider.connection_str`, empty meaning falsy). -/
structure ConnectedState where
  ecosystem : Ecosystem
  networkName : String
  headNumber : Option Nat
  connectionStr : String
deriving DecidableEq, Repr

/-- `NetworkManager.fork` (networks.py:86).  The `-fork` sibling network is
looked up on the live ecosystem (absence is a `NetworkError`); a negative
caller block number is re-based against the head and must stay non-negative;
the derived `fork_settings` (resolved block number, then the upstream
connection string when non-empty) are deep-merged into the caller-supplied
settings under `fork -> ecosystem name -> network name`; finally the sibling
network's `use_provider`/`use_default_provider` (modelled from the spec:
build the provider handle named explicitly or by default, carrying the merged
settings) produces the handle. -/
def fork (conn : ConnectedState) (provider_name : Option String)
    (provider_settings : Val) (block_number : Option Int) : Except NetErr Provider := do
  let forked_network ←
    match conn.ecosystem.get_network (conn.networkName ++ "-fork") with
    | Except.ok n => Except.ok n
    | Except.error _ =>
      Except.error (NetErr.networkError ("Unable to fork network " ++ conn.networkName ++ "."))
  let resolved_block ←
    match block_number with
    | none => Except.ok (none : Option Int)
    | some b =>
      if b < 0 then
        let latest_block_number : Int := Int.ofNat (conn.headNumber.getD 0)
        let b2 := latest_block_number + b
        if b2 < 0 then
          Except.error (NetErr.networkError "Unable to fork past genesis block.")
        else
          Except.ok (some b2)
      else
        Except.ok (some b)
  let upstream : Val :=
    if conn.connectionStr = "" then Val.nil
    else Val.cons "upstream_provider" (Val.str conn.connectionStr) Val.nil
  let fork_settings : Val :=
    match resolved_block with
    | some b => Val.cons "block_number" (Val.int b) upstream
    | none => upstream
  let merged := overlayDict provider_settings
    (Val.cons "fork"
      (Val.cons conn.ecosystem.name
        (Val.cons conn.networkName fork_settings Val.nil) Val.nil) Val.nil)
  forked_network.get_provider conn.ecosystem.name provider_name merged

/-! ## The plugin registry -/

mutual

/-- A contributed object as inspected by `valid_impl`: a class carrying its
name and, when it is an ABC, its set of unimplemented abstract-method names
(`none` embeds a class with no `__abstractmethods__` attribute), or a tuple
of contributed objects. -/
inductive ApiObj where
  | cls : String → Option (List String) → ApiObj
  | tup : ApiObjList → ApiObj

/-- The members of a contributed tuple. -/
inductive ApiObjList where
  | nil : ApiObjList
  | cons : ApiObj → ApiObjList → ApiObjList

end

mutual

/-- `valid_impl` (plugins/__init__.py:101): a tuple is valid when every member
is, a non-ABC class is valid, and an ABC is valid exactly when it has no
remaining abstract methods. -/
def valid_impl : ApiObj → Bool
  | ApiObj.cls _ none => true
  | ApiObj.cls _ (some ms) => ms.isEmpty
  | ApiObj.tup cs => validTup cs

/-- `valid_impl` over the members of a tuple. -/
def validTup : ApiObjList → Bool
  | ApiObjList.nil => true
  | ApiObjList.cons c cs => valid_impl c && validTup cs

end

/-- Every occurrence of `ape-` removed, scanning left to right (the second
`str.replace` in `clean_plugin_name`). -/
def stripApeDashAll : List Char → List Char
  | 'a' :: 'p' :: 'e' :: '-' :: rest => stripApeDashAll rest
  | c :: rest => c :: stripApeDashAll rest
  | [] => []

/-- `clean_plugin_name` (plugins/__init__.py:49):
`name.replace("_", "-").replace("ape-", "")`. -/
def clean_plugin_name (name : String) : String :=
  String.mk (stripApeDashAll (replaceCharList '_' '-' name.data))

/-- The environment `_register_plugins` runs against: the discovered module
names (`self._plugin_modules`, fixed for the process), the bundled core module
names (`ape.__modules__`), and the set of modules whose import (or pluggy
registration) raises. -/
structure PluginEnv where
  pluginModules : List String
  coreModules : List String
  importFails : List String
deriving DecidableEq, Repr

/-- The mutable `PluginManager` state: the one-time registration flag
(`self.__registered`), the modules registered with pluggy, a call counter on
the import step (the spec's observable for idempotence), the warnings logged
so far, and `_unimplemented_plugins` (the plugin names already warned
about). -/
structure PMState where
  registered : Bool
  registeredModules : List String
  importCalls : Nat
  warnings : List String
  unimplementedPlugins : List String
deriving DecidableEq, Repr

/-- The warning logged for a third-party module whose import fails. -/
def importWarnMsg (module_name : String) : String :=
  "Error loading plugin package " ++ module_name ++ "."

/-- One iteration of the registration loop (plugins/__init__.py:191): import
the module (counted), and on failure either re-raise (core module) or log a
warning and continue (third-party module); on success register it. -/
def registerStep (env : PluginEnv) (s : PMState) (module_name : String) : Except String PMState :=
  let s1 := { s with importCalls := s.importCalls + 1 }
  if containsStr env.importFails module_name then
    if containsStr env.coreModules module_name then
      Except.error module_name
    else
      Except.ok { s1 with warnings := s1.warnings ++ [importWarnMsg module_name] }
  else
    Except.ok { s1 with registeredModules := s1.registeredModules ++ [module_name] }

/-- The registration loop over the discovered modules. -/
def registerLoop (env : PluginEnv) : PMState → List String → Except String PMState
  | s, [] => Except.ok s
  | s, m :: rest =>
    match registerStep env s m with
    | Except.ok s2 => registerLoop env s2 rest
    | Except.error e => Except.error e

/-- `PluginManager._register_plugins` (plugins/__init__.py:187): a no-op once
the flag is set, otherwise the loop over every discovered module followed by
setting the flag. -/
def _register_plugins (env : PluginEnv) (s : PMState) : Except String PMState :=
  if s.registered then Except.ok s
  else
    match registerLoop env s env.pluginModules with
    | Except.ok s2 => Except.ok { s2 with registered := true }
    | Except.error e => Except.error e

/-- `n` successive direct calls of the registration step, propagating state
and failures. -/
def registerN (env : PluginEnv) (s : PMState) : Nat → Except String PMState
  | 0 => Except.ok s
  | n + 1 =>
    match _register_plugins env s with
    | Except.ok s2 => registerN env s2 n
    | Except.error e => Except.error e

/-- One hook implementation's return value (plugins/__init__.py:150): either a
single (possibly tuple) result, or a generator providing results as a
series. -/
inductive HookResult where
  | single : ApiObj → HookResult
  | gen : List ApiObj → HookResult

/-- The individual contributions of a hook category, flattened: a single
result (tuples included) is one contribution validated wholesale, a generator
is one contribution per element. -/
def expandHookResults (impls : List (String × HookResult)) : List (String × ApiObj) :=
  impls.flatMap fun pr =>
    match pr.2 with
    | HookResult.single o => [(pr.1, o)]
    | HookResult.gen os => os.map fun o => (pr.1, o)

/-- The validation pass of `PluginManager.__getattr__` over the flattened
contributions: a valid contribution is yielded under its cleaned plugin name;
an invalid one is dropped and warned about unless its plugin name was already
warned about (`_warn_not_fully_implemented_error`, whose message assembly is
not embedded: an emitted warning is recorded as the offending plugin name).
Returns (yielded pairs, updated `_unimplemented_plugins`, warnings emitted by
this pass). -/
def processContribs : List String → List (String × ApiObj) →
    List (String × ApiObj) × List String × List String
  | us, [] => ([], us, [])
  | us, (n, o) :: rest =>
    if valid_impl o then
      let r := processContribs us rest
      ((clean_plugin_name n, o) :: r.1, r.2.1, r.2.2)
    else if containsStr us n then
      processContribs us rest
    else
      let r := processContribs (us ++ [n]) rest
      (r.1, r.2.1, n :: r.2.2)

/-- `PluginManager.__getattr__` (plugins/__init__.py:133) for a known hook
category: register all plugins first (the lazy one-time side effect), then
validate and yield the category's contributions.  `hookEnv` is the hook
dispatch table for the queried category (one entry per registered plugin, in
pluggy order).  Returns the yielded pairs, the warnings emitted by this
query, and the updated state. -/
def pm_getattr (env : PluginEnv) (hookEnv : List (String × HookResult)) (s : PMState) :
    Except String (List (String × ApiObj) × List String × PMState) :=
  match _register_plugins env s with
  | Except.error e => Except.error e
  | Except.ok s2 =>
    let r := processContribs s2.unimplementedPlugins (expandHookResults hookEnv)
    Except.ok (r.1, r.2.2, { s2 with unimplementedPlugins := r.2.1, warnings := s2.warnings ++ r.2.2 })

/-! ## Specification-side predicates -/

/-- Resolution of the selector `s` (with empty settings) succeeds and returns
the handle identified by `(e, n, p)`. -/
def resolvesTo (H : Hierarchy) (s e n p : String) : Prop :=
  get_provider_from_choice H (some s) Val.nil
    = Except.ok { ecosystem := e, network := n, name := p, settings := Val.nil }

/-- Hierarchies over which the selector grammar is unambiguous: ecosystem
names are unique and colon-free, non-empty and not themselves custom-network
indicators; network names per ecosystem are unique, colon-free, non-empty and
do not begin with `//` (so no full selector collides with a URI scheme);
provider names are non-empty and colon-free. -/
structure WF (H : Hierarchy) : Prop where
  eco_nodup : (H.ecosystems.map Ecosystem.name).Nodup
  net_nodup : ∀ eco ∈ H.ecosystems, (eco.networks.map Network.name).Nodup
  eco_name_ok : ∀ eco ∈ H.ecosystems,
    eco.name ≠ "" ∧ containsColon eco.name.data = false ∧ _is_custom_network eco.name = false
  net_name_ok : ∀ eco ∈ H.ecosystems, ∀ net ∈ eco.networks,
    net.name ≠ "" ∧ containsColon net.name.data = false
      ∧ strStarts "//".data net.name.data = false
  prov_name_ok : ∀ eco ∈ H.ecosystems, ∀ net ∈ eco.networks, ∀ p ∈ net.providers,
    p ≠ "" ∧ containsColon p.data = false

/-- The round-trip property of one enumerated selector: a provider-level form
resolves to exactly the triple that produced it; a network-level shorthand
resolves to its producing ecosystem and network, with that network's default
(first) provider; the ecosystem-level shorthand resolves to its producing
ecosystem whenever the ecosystem's declared default network exists and has a
provider. -/
def RoundTrip (H : Hierarchy) (s : String) : Prop :=
  (∃ eco ∈ H.ecosystems, ∃ net ∈ eco.networks, ∃ p ∈ net.providers,
    (s = "::" ++ p ∨ s = ":" ++ net.name ++ ":" ++ p ∨ s = eco.name ++ "::" ++ p
      ∨ s = eco.name ++ ":" ++ net.name ++ ":" ++ p)
    ∧ resolvesTo H s eco.name net.name p)
  ∨ (∃ eco ∈ H.ecosystems, ∃ net ∈ eco.networks,
    (s = ":" ++ net.name ∨ s = eco.name ++ ":" ++ net.name)
    ∧ resolvesTo H s eco.name net.name (net.providers.headD ""))
  ∨ (∃ eco ∈ H.ecosystems, s = eco.name
    ∧ ∀ d ∈ eco.networks, d.name = eco.defaultNetworkName → d.providers ≠ [] →
        resolvesTo H s eco.name d.name (d.providers.headD ""))

/-- The number of `:` characters of a selector (2 exactly for the
provider-level forms over a well-formed hierarchy). -/
def countColons : List Char → Nat
  | [] => 0
  | c :: rest => (if c = ':' then 1 else 0) + countColons rest

/-- The provider name of a resolved selector, when resolution succeeds. -/
def resolvedProviderName (H : Hierarchy) (s : String) : Option String :=
  match get_provider_from_choice H (some s) Val.nil with
  | Except.ok p => some p.name
  | Except.error _ => none

/-! ## Concrete hierarchies used by witnesses and counterexamples -/

/-- A local development network with a non-`geth` first provider. -/
def netLocal : Network := { name := "local", providers := ["test", "geth"] }

/-- A main network with a single provider. -/
def netMain : Network := { name := "mainnet", providers := ["geth"] }

/-- A mainnet-fork sibling network. -/
def netMainFork : Network := { name := "mainnet-fork", providers := ["foundry"] }

/-- An `ethereum` ecosystem defaulting to its local network. -/
def ecoEth : Ecosystem :=
  { name := "ethereum", defaultNetworkName := "local",
    networks := [netLocal, netMain, netMainFork] }

/-- A hierarchy with `ethereum` as the default ecosystem. -/
def Hmain : Hierarchy := { ecosystems := [ecoEth], defaultEcosystemName := "ethereum" }

/-- An ecosystem whose declared default network (`local`) does not exist among
its networks. -/
def ecoPoly : Ecosystem :=
  { name := "polygon", defaultNetworkName := "local", networks := [netMain] }

/-- A hierarchy whose default ecosystem lacks its declared default network. -/
def HnoDefault : Hierarchy := { ecosystems := [ecoPoly], defaultEcosystemName := "polygon" }

/-- The handle produced for the witness URI connection string. -/
def customUriHandle : Provider :=
  { ecosystem := "ethereum", network := "custom", name := "geth",
    settings := Val.cons "uri" (Val.str "https://rpc.example.com") Val.nil }

/-- A connected state on `ethereum`'s `mainnet` at head height 100. -/
def connMain : ConnectedState :=
  { ecosystem := ecoEth, networkName := "mainnet", headNumber := some 100,
    connectionStr := "http://upstream" }

/-- Caller-supplied fork settings pinning an explicit block number. -/
def psOverride : Val :=
  Val.cons "fork"
    (Val.cons "ethereum"
      (Val.cons "mainnet" (Val.cons "block_number" (Val.int 5) Val.nil) Val.nil) Val.nil)
    Val.nil

/-- A plugin environment with no modules at all (registration is a no-op). -/
def envW : PluginEnv := { pluginModules := [], coreModules := [], importFails := [] }

/-- A plugin environment with one core module and one failing third-party
module. -/
def envC7 : PluginEnv :=
  { pluginModules := ["ape_one", "ape_two"], coreModules := ["ape_one"],
    importFails := ["ape_two"] }

/-- The state after registering `envC7` from a fresh state. -/
def s1C7 : PMState :=
  { registered := true, registeredModules := ["ape_one"], importCalls := 2,
    warnings := [importWarnMsg "ape_two"], unimplementedPlugins := [] }

/-- A fresh plugin-manager state. -/
def s0W : PMState :=
  { registered := false, registeredModules := [], importCalls := 0, warnings := [],
    unimplementedPlugins := [] }

/-- A hook dispatch table with one valid single contribution and one generator
whose first element is invalid and second element valid. -/
def hookEnvW : List (String × HookResult) :=
  [("ape_good", HookResult.single (ApiObj.cls "GoodAPI" (some []))),
   ("ape_bad", HookResult.gen [ApiObj.cls "BadAPI" (some ["fetch"]), ApiObj.cls "OkAPI" none])]

/-- The state after the first query of `hookEnvW`: registered, with the
invalid plugin recorded and warned about. -/
def s1W : PMState :=
  { registered := true, registeredModules := [], importCalls := 0, warnings := ["ape_bad"],
    unimplementedPlugins := ["ape_bad"] }

/-- The contributions yielded for `hookEnvW`: both valid classes, under
cleaned plugin names; the invalid one is absent. -/
def y1W : List (String × ApiObj) :=
  [("good", ApiObj.cls "GoodAPI" (some [])), ("bad", ApiObj.cls "OkAPI" none)]

/-- The handle obtained by forking `connMain` under `psOverride`: the caller's
block number survives and the derived upstream address is merged in. -/
def forkResultW : Provider :=
  { ecosystem := "ethereum", network := "mainnet-fork", name := "foundry",
    settings := Val.cons "fork"
      (Val.cons "ethereum"
        (Val.cons "mainnet"
          (Val.cons "block_number" (Val.int 5)
            (Val.cons "upstream_provider" (Val.str "http://upstream") Val.nil))
          Val.nil)
        Val.nil)
      Val.nil }

/-! # Theorems

## String-level lemmas -/

theorem strMkData (s : String) : String.mk s.data = s := rfl

theorem dataAppend (a b : String) : (a ++ b).data = a.data ++ b.data := rfl

theorem colonData : (":" : String).data = [':'] := rfl

theorem containsColon_append (x y : List Char) :
    containsColon (x ++ y) = (containsColon x || containsColon y) := by
  induction x with
  | nil => simp [containsColon]
  | cons c rest ih => simp [containsColon, ih, Bool.or_assoc]

theorem containsColon_colon_cons (y : List Char) :
    containsColon (':' :: y) = true := by
  simp [containsColon]

theorem splitColonChars_ne_nil (l : List Char) : splitColonChars l ≠ [] := by
  induction l with
  | nil => simp [splitColonChars]
  | cons c rest ih =>
    by_cases hc : c = ':'
    · simp [splitColonChars, hc]
    · simp only [splitColonChars, if_neg hc]
      cases h : splitColonChars rest with
      | nil => simp
      | cons a t => simp

theorem splitColonChars_no_colon (l : List Char) (h : containsColon l = false) :
    splitColonChars l = [l] := by
  induction l with
  | nil => rfl
  | cons c rest ih =>
    simp only [containsColon, Bool.or_eq_false_iff] at h
    have hc : c ≠ ':' := by
      intro hcc
      simp [hcc] at h
    rw [splitColonChars, if_neg hc, ih h.2]

theorem splitColonChars_append_colon (x y : List Char) (h : containsColon x = false) :
    splitColonChars (x ++ ':' :: y) = x :: splitColonChars y := by
  induction x with
  | nil => simp [splitColonChars]
  | cons c rest ih =>
    simp only [containsColon, Bool.or_eq_false_iff] at h
    have hc : c ≠ ':' := by
      intro hcc
      simp [hcc] at h
    rw [List.cons_append, splitColonChars, if_neg hc, ih h.2]

theorem strStarts_nil (l : List Char) : strStarts [] l = true := by
  cases l <;> rfl

/-- A colon-free pattern that leads a string whose first colon closes segment
`x` must already lead `x` itself. -/
theorem strStarts_colonfree_left (pre x y : List Char) (hpre : containsColon pre = false)
    (h : strStarts pre (x ++ ':' :: y) = true) : strStarts pre x = true := by
  induction pre generalizing x with
  | nil => exact strStarts_nil x
  | cons a as ih =>
    simp only [containsColon, Bool.or_eq_false_iff] at hpre
    have ha : a ≠ ':' := by
      intro hcc
      simp [hcc] at hpre
    cases x with
    | nil =>
      simp only [List.nil_append, strStarts, Bool.and_eq_true, decide_eq_true_eq] at h
      exact absurd h.1 ha
    | cons b bs =>
      simp only [List.cons_append, strStarts, Bool.and_eq_true, decide_eq_true_eq] at h ⊢
      exact ⟨h.1, ih bs hpre.2 h.2⟩

/-- Matching a pattern of the shape `p1 ++ ":" ++ p2` against a string of the
shape `e ++ ":" ++ t` with both `p1` and `e` colon-free forces `p1 = e` and
matches `p2` against `t`. -/
theorem strStarts_colon_split (p1 p2 e t : List Char)
    (hp : containsColon p1 = false) (he : containsColon e = false)
    (h : strStarts (p1 ++ ':' :: p2) (e ++ ':' :: t) = true) :
    p1 = e ∧ strStarts p2 t = true := by
  induction p1 generalizing e with
  | nil =>
    cases e with
    | nil =>
      simp only [List.nil_append, strStarts, Bool.and_eq_true, decide_eq_true_eq] at h
      exact ⟨rfl, h.2⟩
    | cons b bs =>
      simp only [List.nil_append, List.cons_append, strStarts, Bool.and_eq_true,
        decide_eq_true_eq] at h
      have hb : b ≠ ':' := by
        intro hcc
        simp [containsColon, hcc] at he
      exact absurd h.1.symm hb
  | cons a as ih =>
    have ha : a ≠ ':' := by
      intro hcc
      simp [containsColon, hcc] at hp
    cases e with
    | nil =>
      simp only [List.cons_append, List.nil_append, strStarts, Bool.and_eq_true,
        decide_eq_true_eq] at h
      exact absurd h.1 ha
    | cons b bs =>
      simp only [containsColon, Bool.or_eq_false_iff] at hp he
      simp only [List.cons_append, strStarts, Bool.and_eq_true, decide_eq_true_eq] at h
      obtain ⟨h1, h2⟩ := ih bs hp.2 he.2 h.2
      exact ⟨by rw [h.1, h1], h2⟩

/-! ## Lookup lemmas -/

theorem containsStr_of_mem {l : List String} {s : String} (h : s ∈ l) :
    containsStr l s = true := by
  induction l with
  | nil => cases h
  | cons x rest ih =>
    rcases List.mem_cons.mp h with h1 | h2
    · simp [containsStr, h1]
    · simp [containsStr, ih h2]

theorem mem_of_containsStr {l : List String} {s : String} (h : containsStr l s = true) :
    s ∈ l := by
  induction l with
  | nil => simp [containsStr] at h
  | cons x rest ih =>
    simp only [containsStr, Bool.or_eq_true, decide_eq_true_eq] at h
    rcases h with h1 | h2
    · exact h1 ▸ List.mem_cons_self x rest
    · exact List.mem_cons_of_mem x (ih h2)

/-- In a list with pairwise-distinct names, `find?` by the name of a member
returns that member. -/
theorem find_by_name_nodup {α : Type} (nameOf : α → String) (l : List α) (a : α)
    (hnd : (l.map nameOf).Nodup) (ha : a ∈ l) :
    (l.find? fun x => nameOf x = nameOf a) = some a := by
  induction l with
  | nil => cases ha
  | cons x rest ih =>
    simp only [List.map_cons, List.nodup_cons] at hnd
    rcases List.mem_cons.mp ha with h1 | h2
    · subst h1
      exact List.find?_cons_of_pos rest (by simp)
    · have hx : nameOf x ≠ nameOf a := by
        intro he
        exact hnd.1 (he ▸ List.mem_map_of_mem nameOf h2)
      rw [List.find?_cons_of_neg rest (by simp [hx]), ih hnd.2 h2]

theorem findEcosystem_of_mem {H : Hierarchy} {eco : Ecosystem}
    (hnd : (H.ecosystems.map Ecosystem.name).Nodup) (he : eco ∈ H.ecosystems) :
    findEcosystem H eco.name = some eco :=
  find_by_name_nodup Ecosystem.name H.ecosystems eco hnd he

theorem get_ecosystem_of_mem {H : Hierarchy} {eco : Ecosystem}
    (hnd : (H.ecosystems.map Ecosystem.name).Nodup) (he : eco ∈ H.ecosystems) :
    get_ecosystem H eco.name = Except.ok eco := by
  rw [get_ecosystem, findEcosystem_of_mem hnd he]

theorem default_ecosystem_of_mem {H : Hierarchy} {eco : Ecosystem}
    (hnd : (H.ecosystems.map Ecosystem.name).Nodup) (he : eco ∈ H.ecosystems)
    (hname : eco.name = H.defaultEcosystemName) :
    H.default_ecosystem = Except.ok eco := by
  rw [Hierarchy.default_ecosystem, ← hname, findEcosystem_of_mem hnd he]

theorem get_network_of_mem {eco : Ecosystem} {net : Network}
    (hnd : (eco.networks.map Network.name).Nodup) (hn : net ∈ eco.networks) :
    eco.get_network net.name = Except.ok net := by
  rw [Ecosystem.get_network, find_by_name_nodup Network.name eco.networks net hnd hn]

theorem get_provider_explicit {net : Network} {p : String} (ecoName : String) (ps : Val)
    (hp : p ∈ net.providers) (hne : p ≠ "") :
    net.get_provider ecoName (some p) ps
      = Except.ok { ecosystem := ecoName, network := net.name, name := p, settings := ps } := by
  simp [Network.get_provider, hne, containsStr_of_mem hp]

theorem get_provider_default {net : Network} {q : String} {rest : List String}
    (ecoName : String) (ps : Val) (hq : net.providers = q :: rest) :
    net.get_provider ecoName none ps
      = Except.ok { ecosystem := ecoName, network := net.name, name := q, settings := ps } := by
  rw [Network.get_provider]
  simp only [Network.default_provider, hq, List.head?]
  simp [containsStr]

/-! ## Custom-indicator lemmas for enumerated selectors -/

theorem isCustom_head_colon (rest : List Char) :
    _is_custom_network (String.mk (':' :: rest)) = false := by
  simp [_is_custom_network, strStarts, containsColon, strEnds]

/-- A selector of the shape `e:tail` with a colon-free ecosystem name that is
not itself a custom indicator, whose `tail` does not begin with `//`, is not a
custom indicator. -/
theorem isCustom_eco_colon (e : String) (tail : List Char)
    (hco : containsColon e.data = false)
    (hns : strStarts "//".data tail = false) :
    _is_custom_network (String.mk (e.data ++ ':' :: tail)) = false := by
  rw [_is_custom_network]
  have hipc : (strEnds ".ipc".data (e.data ++ ':' :: tail)
      && !containsColon (e.data ++ ':' :: tail)) = false := by
    rw [containsColon_append, containsColon_colon_cons]
    simp
  have hscheme : ∀ p1 : List Char, containsColon p1 = false →
      strStarts (p1 ++ ':' :: "//".data) (e.data ++ ':' :: tail) = false := by
    intro p1 hp1
    by_contra hne
    have htrue : strStarts (p1 ++ ':' :: "//".data) (e.data ++ ':' :: tail) = true := by
      revert hne
      cases strStarts (p1 ++ ':' :: "//".data) (e.data ++ ':' :: tail) <;> simp
    obtain ⟨-, h2⟩ := strStarts_colon_split p1 "//".data e.data tail hp1 hco htrue
    rw [hns] at h2
    cases h2
  have h1 : strStarts "http://".data (e.data ++ ':' :: tail) = false :=
    hscheme "http".data (by decide)
  have h2 : strStarts "https://".data (e.data ++ ':' :: tail) = false :=
    hscheme "https".data (by decide)
  have h3 : strStarts "ws://".data (e.data ++ ':' :: tail) = false :=
    hscheme "ws".data (by decide)
  have h4 : strStarts "wss://".data (e.data ++ ':' :: tail) = false :=
    hscheme "wss".data (by decide)
  rw [h1, h2, h3, h4, hipc]
  rfl

theorem strStarts_slashes_false (n tail : List Char)
    (hns : strStarts "//".data n = false) :
    strStarts "//".data (n ++ ':' :: tail) = false := by
  by_contra hne
  have htrue : strStarts "//".data (n ++ ':' :: tail) = true := by
    revert hne
    cases strStarts "//".data (n ++ ':' :: tail) <;> simp
  rw [strStarts_colonfree_left "//".data n tail (by decide) htrue] at hns
  cases hns

/-! ## Resolution of each enumerated selector form -/

theorem bindOk {β γ : Type} (a : β) (f : β → Except NetErr γ) :
    (Except.ok a >>= f) = f a := rfl

theorem resolve_form_full {H : Hierarchy} {eco : Ecosystem} {net : Network} {p : String}
    (hw : WF H) (he : eco ∈ H.ecosystems) (hn : net ∈ eco.networks) (hp : p ∈ net.providers) :
    resolvesTo H (eco.name ++ ":" ++ net.name ++ ":" ++ p) eco.name net.name p := by
  obtain ⟨hene, heco, -⟩ := hw.eco_name_ok eco he
  obtain ⟨hnne, hnco, hnss⟩ := hw.net_name_ok eco he net hn
  obtain ⟨hpne, hpco⟩ := hw.prov_name_ok eco he net hn p hp
  have hdata : (eco.name ++ ":" ++ net.name ++ ":" ++ p).data
      = eco.name.data ++ ':' :: (net.name.data ++ ':' :: p.data) := by
    simp [dataAppend, colonData]
  have hs : (eco.name ++ ":" ++ net.name ++ ":" ++ p)
      = String.mk (eco.name.data ++ ':' :: (net.name.data ++ ':' :: p.data)) := by
    rw [← hdata]
  have hcustom : _is_custom_network (eco.name ++ ":" ++ net.name ++ ":" ++ p) = false := by
    rw [hs]
    exact isCustom_eco_colon eco.name (net.name.data ++ ':' :: p.data) heco
      (strStarts_slashes_false net.name.data p.data hnss)
  have hsplit : pySplitColon (eco.name ++ ":" ++ net.name ++ ":" ++ p)
      = [eco.name, net.name, p] := by
    rw [pySplitColon, hdata, splitColonChars_append_colon _ _ heco,
      splitColonChars_append_colon _ _ hnco, splitColonChars_no_colon _ hpco]
    simp [strMkData]
  have hparse : parseSelections (eco.name ++ ":" ++ net.name ++ ":" ++ p)
      = [eco.name, net.name, p] := by
    rw [parseSelections, hsplit]
  rw [resolvesTo, get_provider_from_choice, hcustom]
  simp only [Bool.false_eq_true, if_false, hparse]
  rw [if_neg hene]
  rw [get_ecosystem_of_mem hw.eco_nodup he, bindOk]
  rw [if_neg hnne, get_network_of_mem (hw.net_nodup eco he) hn, bindOk]
  exact get_provider_explicit eco.name Val.nil hp hpne

theorem colon2Data : ("::" : String).data = [':', ':'] := rfl

theorem slashesData : ("//" : String).data = ['/', '/'] := rfl

theorem splitColonChars_colon_cons (y : List Char) :
    splitColonChars (':' :: y) = [] :: splitColonChars y := by
  simp [splitColonChars]

theorem resolve_form_dd {H : Hierarchy} {eco : Ecosystem} {net : Network} {p : String}
    (hw : WF H) (he : eco ∈ H.ecosystems) (hn : net ∈ eco.networks) (hp : p ∈ net.providers)
    (hde : eco.name = H.defaultEcosystemName) (hdn : net.name = eco.defaultNetworkName) :
    resolvesTo H ("::" ++ p) eco.name net.name p := by
  obtain ⟨hpne, hpco⟩ := hw.prov_name_ok eco he net hn p hp
  have hdata : ("::" ++ p).data = ':' :: (':' :: p.data) := by
    simp [dataAppend, colon2Data]
  have hs : ("::" ++ p) = String.mk (':' :: (':' :: p.data)) := by
    rw [← hdata]
  have hcustom : _is_custom_network ("::" ++ p) = false := by
    rw [hs]
    exact isCustom_head_colon (':' :: p.data)
  have hsplit : pySplitColon ("::" ++ p) = ["", "", p] := by
    rw [pySplitColon, hdata, splitColonChars_colon_cons, splitColonChars_colon_cons,
      splitColonChars_no_colon _ hpco]
    simp [strMkData]
  have hparse : parseSelections ("::" ++ p) = ["", "", p] := by
    rw [parseSelections, hsplit]
  rw [resolvesTo, get_provider_from_choice, hcustom]
  simp only [Bool.false_eq_true, if_false, hparse, if_true]
  rw [default_ecosystem_of_mem hw.eco_nodup he hde, bindOk]
  rw [← hdn, get_network_of_mem (hw.net_nodup eco he) hn, bindOk]
  exact get_provider_explicit eco.name Val.nil hp hpne

theorem resolve_form_np {H : Hierarchy} {eco : Ecosystem} {net : Network} {p : String}
    (hw : WF H) (he : eco ∈ H.ecosystems) (hn : net ∈ eco.networks) (hp : p ∈ net.providers)
    (hde : eco.name = H.defaultEcosystemName) :
    resolvesTo H (":" ++ net.name ++ ":" ++ p) eco.name net.name p := by
  obtain ⟨hnne, hnco, -⟩ := hw.net_name_ok eco he net hn
  obtain ⟨hpne, hpco⟩ := hw.prov_name_ok eco he net hn p hp
  have hdata : (":" ++ net.name ++ ":" ++ p).data = ':' :: (net.name.data ++ ':' :: p.data) := by
    simp [dataAppend, colonData]
  have hs : (":" ++ net.name ++ ":" ++ p)
      = String.mk (':' :: (net.name.data ++ ':' :: p.data)) := by
    rw [← hdata]
  have hcustom : _is_custom_network (":" ++ net.name ++ ":" ++ p) = false := by
    rw [hs]
    exact isCustom_head_colon _
  have hsplit : pySplitColon (":" ++ net.name ++ ":" ++ p) = ["", net.name, p] := by
    rw [pySplitColon, hdata, splitColonChars_colon_cons,
      splitColonChars_append_colon _ _ hnco, splitColonChars_no_colon _ hpco]
    simp [strMkData]
  have hparse : parseSelections (":" ++ net.name ++ ":" ++ p) = ["", net.name, p] := by
    rw [parseSelections, hsplit]
  rw [resolvesTo, get_provider_from_choice, hcustom]
  simp only [Bool.false_eq_true, if_false, hparse, if_true]
  rw [default_ecosystem_of_mem hw.eco_nodup he hde, bindOk]
  rw [if_neg hnne, get_network_of_mem (hw.net_nodup eco he) hn, bindOk]
  exact get_provider_explicit eco.name Val.nil hp hpne

theorem resolve_form_ep {H : Hierarchy} {eco : Ecosystem} {net : Network} {p : String}
    (hw : WF H) (he : eco ∈ H.ecosystems) (hn : net ∈ eco.networks) (hp : p ∈ net.providers)
    (hdn : net.name = eco.defaultNetworkName) :
    resolvesTo H (eco.name ++ "::" ++ p) eco.name net.name p := by
  obtain ⟨hene, heco, -⟩ := hw.eco_name_ok eco he
  obtain ⟨hpne, hpco⟩ := hw.prov_name_ok eco he net hn p hp
  have hdata : (eco.name ++ "::" ++ p).data = eco.name.data ++ ':' :: (':' :: p.data) := by
    simp [dataAppend, colon2Data]
  have hs : (eco.name ++ "::" ++ p) = String.mk (eco.name.data ++ ':' :: (':' :: p.data)) := by
    rw [← hdata]
  have hcustom : _is_custom_network (eco.name ++ "::" ++ p) = false := by
    rw [hs]
    refine isCustom_eco_colon eco.name (':' :: p.data) heco ?_
    simp [slashesData, strStarts]
  have hsplit : pySplitColon (eco.name ++ "::" ++ p) = [eco.name, "", p] := by
    rw [pySplitColon, hdata, splitColonChars_append_colon _ _ heco, splitColonChars_colon_cons,
      splitColonChars_no_colon _ hpco]
    simp [strMkData]
  have hparse : parseSelections (eco.name ++ "::" ++ p) = [eco.name, "", p] := by
    rw [parseSelections, hsplit]
  rw [resolvesTo, get_provider_from_choice, hcustom]
  simp only [Bool.false_eq_true, if_false, hparse, if_true]
  rw [if_neg hene, get_ecosystem_of_mem hw.eco_nodup he, bindOk]
  rw [← hdn, get_network_of_mem (hw.net_nodup eco he) hn, bindOk]
  exact get_provider_explicit eco.name Val.nil hp hpne

theorem resolve_form_n {H : Hierarchy} {eco : Ecosystem} {net : Network}
    (hw : WF H) (he : eco ∈ H.ecosystems) (hn : net ∈ eco.networks)
    (hde : eco.name = H.defaultEcosystemName) (hne : net.providers ≠ []) :
    resolvesTo H (":" ++ net.name) eco.name net.name (net.providers.headD "") := by
  obtain ⟨hnne, hnco, -⟩ := hw.net_name_ok eco he net hn
  have hdata : (":" ++ net.name).data = ':' :: net.name.data := by
    simp [dataAppend, colonData]
  have hs : (":" ++ net.name) = String.mk (':' :: net.name.data) := by
    rw [← hdata]
  have hcustom : _is_custom_network (":" ++ net.name) = false := by
    rw [hs]
    exact isCustom_head_colon _
  have hsplit : pySplitColon (":" ++ net.name) = ["", net.name] := by
    rw [pySplitColon, hdata, splitColonChars_colon_cons, splitColonChars_no_colon _ hnco]
    simp [strMkData]
  have hparse : parseSelections (":" ++ net.name) = ["", net.name] := by
    rw [parseSelections, hsplit]
  rw [resolvesTo, get_provider_from_choice, hcustom]
  simp only [Bool.false_eq_true, if_false, hparse, if_true]
  rw [← hde, get_ecosystem_of_mem hw.eco_nodup he, bindOk]
  rw [if_neg hnne, get_network_of_mem (hw.net_nodup eco he) hn, bindOk]
  cases hq : net.providers with
  | nil => exact absurd hq hne
  | cons q rest =>
    rw [get_provider_default eco.name Val.nil hq]
    rfl

theorem resolve_form_en {H : Hierarchy} {eco : Ecosystem} {net : Network}
    (hw : WF H) (he : eco ∈ H.ecosystems) (hn : net ∈ eco.networks)
    (hne : net.providers ≠ []) :
    resolvesTo H (eco.name ++ ":" ++ net.name) eco.name net.name (net.providers.headD "") := by
  obtain ⟨hene, heco, -⟩ := hw.eco_name_ok eco he
  obtain ⟨hnne, hnco, hnss⟩ := hw.net_name_ok eco he net hn
  have hdata : (eco.name ++ ":" ++ net.name).data = eco.name.data ++ ':' :: net.name.data := by
    simp [dataAppend, colonData]
  have hs : (eco.name ++ ":" ++ net.name)
      = String.mk (eco.name.data ++ ':' :: net.name.data) := by
    rw [← hdata]
  have hcustom : _is_custom_network (eco.name ++ ":" ++ net.name) = false := by
    rw [hs]
    exact isCustom_eco_colon eco.name net.name.data heco hnss
  have hsplit : pySplitColon (eco.name ++ ":" ++ net.name) = [eco.name, net.name] := by
    rw [pySplitColon, hdata, splitColonChars_append_colon _ _ heco,
      splitColonChars_no_colon _ hnco]
    simp [strMkData]
  have hparse : parseSelections (eco.name ++ ":" ++ net.name) = [eco.name, net.name] := by
    rw [parseSelections, hsplit]
  rw [resolvesTo, get_provider_from_choice, hcustom]
  simp only [Bool.false_eq_true, if_false, hparse]
  rw [if_neg hene, get_ecosystem_of_mem hw.eco_nodup he, bindOk]
  rw [if_neg hnne, get_network_of_mem (hw.net_nodup eco he) hn, bindOk]
  cases hq : net.providers with
  | nil => exact absurd hq hne
  | cons q rest =>
    rw [get_provider_default eco.name Val.nil hq]
    rfl

theorem resolve_form_eco {H : Hierarchy} {eco : Ecosystem}
    (hw : WF H) (he : eco ∈ H.ecosystems) :
    ∀ d ∈ eco.networks, d.name = eco.defaultNetworkName → d.providers ≠ [] →
      resolvesTo H eco.name eco.name d.name (d.providers.headD "") := by
  intro d hd hdname hprov
  obtain ⟨hene, heco, hecu⟩ := hw.eco_name_ok eco he
  have hsplit : pySplitColon eco.name = [eco.name] := by
    rw [pySplitColon, splitColonChars_no_colon _ heco]
    simp [strMkData]
  have hparse : parseSelections eco.name = [eco.name] := by
    rw [parseSelections, hsplit]
  rw [resolvesTo, get_provider_from_choice, hecu]
  simp only [Bool.false_eq_true, if_false, hparse]
  rw [if_neg hene, get_ecosystem_of_mem hw.eco_nodup he, bindOk]
  rw [Ecosystem.default_network, ← hdname, get_network_of_mem (hw.net_nodup eco he) hd, bindOk]
  cases hq : d.providers with
  | nil => exact absurd hq hprov
  | cons q rest =>
    rw [get_provider_default eco.name Val.nil hq]
    rfl

/-! ## Decomposition of the enumeration -/

theorem bindErr {ε β γ : Type} (e : ε) (f : β → Except ε γ) :
    ((Except.error e : Except ε β) >>= f) = Except.error e := rfl

theorem choices_ok_eq {H : Hierarchy} {ef nf pf L : List String}
    (h : get_network_choices H ef nf pf = Except.ok L) :
    L = (if ef.isEmpty then H.ecosystems
         else H.ecosystems.filter fun e => containsStr ef e.name).flatMap
        fun eco => ecoChoices H eco nf pf := by
  rw [get_network_choices] at h
  simp only [_validate_filter] at h
  split at h
  · split at h
    · split at h
      · simp only [bindOk] at h
        exact ((Except.ok.injEq _ _).mp h).symm
      · simp only [bindOk, bindErr] at h
        cases h
    · simp only [bindOk, bindErr] at h
      cases h
  · simp only [bindOk, bindErr] at h
    cases h

theorem mem_ecoChoices_aux {H : Hierarchy} {eco : Ecosystem} {pf : List String} {s : String}
    (items : List Network) (hsub : ∀ net ∈ items, net ∈ eco.networks)
    (h : s ∈ (if items.isEmpty then []
          else items.flatMap (fun net => netChoices H eco net pf)
            ++ if items.any (fun net => !(survivingProviders pf net).isEmpty)
               then [eco.name] else [])) :
    (∃ net ∈ eco.networks, s ∈ netChoices H eco net pf) ∨ s = eco.name := by
  split at h
  · cases h
  · rcases List.mem_append.mp h with h1 | h2
    · obtain ⟨net, hmem, hnet⟩ := List.mem_flatMap.mp h1
      exact Or.inl ⟨net, hsub net hmem, hnet⟩
    · right
      revert h2
      split
      · intro h2
        exact List.mem_singleton.mp h2
      · intro h2
        cases h2

theorem mem_ecoChoices_cases {H : Hierarchy} {eco : Ecosystem} {nf pf : List String} {s : String}
    (h : s ∈ ecoChoices H eco nf pf) :
    (∃ net ∈ eco.networks, s ∈ netChoices H eco net pf) ∨ s = eco.name := by
  rw [ecoChoices] at h
  refine mem_ecoChoices_aux
    (if nf.isEmpty then eco.networks else eco.networks.filter fun n => containsStr nf n.name)
    ?_ h
  intro net hm
  revert hm
  split
  · exact fun hm => hm
  · exact fun hm => (List.mem_filter.mp hm).1

theorem mem_netChoices_cases {H : Hierarchy} {eco : Ecosystem} {net : Network}
    {pf : List String} {s : String} (h : s ∈ netChoices H eco net pf) :
    survivingProviders pf net ≠ [] ∧
    ((∃ p ∈ survivingProviders pf net, s ∈ providerForms H eco net p)
      ∨ (s = ":" ++ net.name ∧ eco.name = H.defaultEcosystemName)
      ∨ s = eco.name ++ ":" ++ net.name) := by
  rw [netChoices] at h
  split at h
  · cases h
  · next hne =>
    refine ⟨by simpa using hne, ?_⟩
    rcases List.mem_append.mp h with h1 | h2
    · rcases List.mem_append.mp h1 with h3 | h4
      · obtain ⟨p, hmem, hp⟩ := List.mem_flatMap.mp h3
        exact Or.inl ⟨p, hmem, hp⟩
      · right
        left
        revert h4
        split
        · next hde => exact fun h4 => ⟨List.mem_singleton.mp h4, hde⟩
        · exact fun h4 => absurd h4 (List.not_mem_nil s)
    · exact Or.inr (Or.inr (List.mem_singleton.mp h2))

theorem mem_providerForms_cases {H : Hierarchy} {eco : Ecosystem} {net : Network}
    {p s : String} (h : s ∈ providerForms H eco net p) :
    (s = "::" ++ p ∧ eco.name = H.defaultEcosystemName ∧ net.name = eco.defaultNetworkName)
    ∨ (s = ":" ++ net.name ++ ":" ++ p ∧ eco.name = H.defaultEcosystemName)
    ∨ (s = eco.name ++ "::" ++ p ∧ net.name = eco.defaultNetworkName)
    ∨ s = eco.name ++ ":" ++ net.name ++ ":" ++ p := by
  rw [providerForms] at h
  rcases List.mem_append.mp h with h1 | h2
  · rcases List.mem_append.mp h1 with h3 | h4
    · rcases List.mem_append.mp h3 with h5 | h6
      · left
        revert h5
        split
        · next hc => exact fun h5 => ⟨List.mem_singleton.mp h5, hc.1, hc.2⟩
        · exact fun h5 => absurd h5 (List.not_mem_nil s)
      · right
        left
        revert h6
        split
        · next hc => exact fun h6 => ⟨List.mem_singleton.mp h6, hc⟩
        · exact fun h6 => absurd h6 (List.not_mem_nil s)
    · right
      right
      left
      revert h4
      split
      · next hc => exact fun h4 => ⟨List.mem_singleton.mp h4, hc⟩
      · exact fun h4 => absurd h4 (List.not_mem_nil s)
  · exact Or.inr (Or.inr (Or.inr (List.mem_singleton.mp h2)))

theorem surviving_subset {pf : List String} {net : Network} {p : String}
    (h : p ∈ survivingProviders pf net) : p ∈ net.providers := by
  rw [survivingProviders] at h
  revert h
  split
  · exact fun h => h
  · exact fun h => (List.mem_filter.mp h).1

theorem surviving_ne_nil_providers {pf : List String} {net : Network}
    (h : survivingProviders pf net ≠ []) : net.providers ≠ [] := by
  intro hnil
  apply h
  rw [survivingProviders, hnil]
  split
  · rfl
  · rfl

/-! ## C1: enumeration round-trip -/

/-- C1, counterexample.  The claim includes the ecosystem-level shorthand in
the round-trip guarantee, but the bare ecosystem name is yielded as soon as
any of its networks keeps a provider, while resolving it goes through the
ecosystem's default network: in `HnoDefault` the ecosystem `polygon` (default
network `local`, which does not exist; a provider-bearing network `mainnet`)
is enumerated as the selector `"polygon"`, whose resolution fails with
`NetworkNotFoundError` instead of producing a provider handle. -/
theorem c1_counterexample :
    get_network_choices HnoDefault [] [] []
      = Except.ok [":mainnet:geth", "polygon:mainnet:geth", ":mainnet", "polygon:mainnet",
          "polygon"]
    ∧ "polygon" ∈ [":mainnet:geth", "polygon:mainnet:geth", ":mainnet", "polygon:mainnet",
          "polygon"]
    ∧ get_provider_from_choice HnoDefault (some "polygon") Val.nil
      = Except.error (NetErr.networkNotFound "local") :=
  ⟨rfl, by decide, rfl⟩

/-- C1 (amended): over a hierarchy with well-formed names, every selector
yielded by `get_network_choices` round-trips through
`get_provider_from_choice`: a provider-level form (`::p`, `:n:p`, `e::p`,
`e:n:p`) resolves to exactly the (ecosystem, network, provider) triple whose
iteration produced it; a network-level shorthand (`:n`, `e:n`) resolves to
its producing ecosystem and network with that network's default provider; the
ecosystem-level shorthand `e` resolves to its producing ecosystem provided
the ecosystem's declared default network exists and has a provider
(otherwise its resolution is an error, as the counterexample shows). -/
theorem c1_roundtrip_amended {H : Hierarchy} (hw : WF H) {ef nf pf L : List String}
    (hok : get_network_choices H ef nf pf = Except.ok L) {s : String} (hs : s ∈ L) :
    RoundTrip H s := by
  rw [choices_ok_eq hok] at hs
  obtain ⟨eco, hecoI, hseco⟩ := List.mem_flatMap.mp hs
  have he : eco ∈ H.ecosystems := by
    revert hecoI
    split
    · exact fun hm => hm
    · exact fun hm => (List.mem_filter.mp hm).1
  rcases mem_ecoChoices_cases hseco with ⟨net, hn, hsnet⟩ | hseq
  · obtain ⟨hsurv, hcases⟩ := mem_netChoices_cases hsnet
    rcases hcases with ⟨p, hpS, hpForms⟩ | ⟨hseq, hde⟩ | hseq
    · have hp : p ∈ net.providers := surviving_subset hpS
      rcases mem_providerForms_cases hpForms with ⟨rfl, hde, hdn⟩ | ⟨rfl, hde⟩ | ⟨rfl, hdn⟩ | rfl
      · exact Or.inl ⟨eco, he, net, hn, p, hp, Or.inl rfl,
          resolve_form_dd hw he hn hp hde hdn⟩
      · exact Or.inl ⟨eco, he, net, hn, p, hp, Or.inr (Or.inl rfl),
          resolve_form_np hw he hn hp hde⟩
      · exact Or.inl ⟨eco, he, net, hn, p, hp, Or.inr (Or.inr (Or.inl rfl)),
          resolve_form_ep hw he hn hp hdn⟩
      · exact Or.inl ⟨eco, he, net, hn, p, hp, Or.inr (Or.inr (Or.inr rfl)),
          resolve_form_full hw he hn hp⟩
    · subst hseq
      exact Or.inr (Or.inl ⟨eco, he, net, hn, Or.inl rfl,
        resolve_form_n hw he hn hde (surviving_ne_nil_providers hsurv)⟩)
    · subst hseq
      exact Or.inr (Or.inl ⟨eco, he, net, hn, Or.inr rfl,
        resolve_form_en hw he hn (surviving_ne_nil_providers hsurv)⟩)
  · subst hseq
    exact Or.inr (Or.inr ⟨eco, he, rfl, resolve_form_eco hw he⟩)

/-- C1, witness: the amended round-trip applied to the concrete hierarchy
`Hmain` and the yielded selector `"::geth"`. -/
theorem c1_roundtrip_amended_witness :
    ∃ L, get_network_choices Hmain [] [] [] = Except.ok L ∧ "::geth" ∈ L
      ∧ RoundTrip Hmain "::geth" := by
  have hw : WF Hmain := ⟨by decide, by decide, by decide, by decide, by decide⟩
  have hok : get_network_choices Hmain [] [] []
      = Except.ok ["::test", ":local:test", "ethereum::test", "ethereum:local:test", "::geth",
          ":local:geth", "ethereum::geth", "ethereum:local:geth", ":local", "ethereum:local",
          ":mainnet:geth", "ethereum:mainnet:geth", ":mainnet", "ethereum:mainnet",
          ":mainnet-fork:foundry", "ethereum:mainnet-fork:foundry", ":mainnet-fork",
          "ethereum:mainnet-fork", "ethereum"] := rfl
  exact ⟨_, hok, by decide, c1_roundtrip_amended hw hok (by decide)⟩

/-! ## C2: provider filtering -/

theorem countColons_append (x y : List Char) :
    countColons (x ++ y) = countColons x + countColons y := by
  induction x with
  | nil => simp [countColons]
  | cons c rest ih => simp [countColons, ih]; omega

theorem countColons_zero {x : List Char} (h : containsColon x = false) :
    countColons x = 0 := by
  induction x with
  | nil => rfl
  | cons c rest ih =>
    simp only [containsColon, Bool.or_eq_false_iff] at h
    have hc : c ≠ ':' := by
      intro hcc
      simp [hcc] at h
    simp [countColons, hc, ih h.2]

theorem surviving_mem_pf {pf : List String} {net : Network} {p : String}
    (hpf : pf.isEmpty = false) (h : p ∈ survivingProviders pf net) :
    containsStr pf p = true := by
  rw [survivingProviders, if_neg (by simp [hpf])] at h
  exact (List.mem_filter.mp h).2

theorem resolvedProviderName_of_resolvesTo {H : Hierarchy} {s e n p : String}
    (h : resolvesTo H s e n p) : resolvedProviderName H s = some p := by
  rw [resolvesTo] at h
  rw [resolvedProviderName, h]

/-- C2, counterexample.  With `provider_filter = {"geth"}` the enumeration
still yields the network-level shorthand `":local"` (its network kept the
surviving provider `geth`), but that shorthand resolves to the network's
default provider `test`, not to `geth` — refuting "no yielded selector
resolves to any other provider". -/
theorem c2_counterexample :
    get_network_choices Hmain [] [] ["geth"]
      = Except.ok ["::geth", ":local:geth", "ethereum::geth", "ethereum:local:geth", ":local",
          "ethereum:local", ":mainnet:geth", "ethereum:mainnet:geth", ":mainnet",
          "ethereum:mainnet", "ethereum"]
    ∧ ":local" ∈ ["::geth", ":local:geth", "ethereum::geth", "ethereum:local:geth", ":local",
          "ethereum:local", ":mainnet:geth", "ethereum:mainnet:geth", ":mainnet",
          "ethereum:mainnet", "ethereum"]
    ∧ resolvedProviderName Hmain ":local" = some "test"
    ∧ ("test" : String) ≠ "geth" :=
  ⟨rfl, by decide, rfl, by decide⟩

/-- C2 (amended): over a hierarchy with well-formed names, every selector
yielded by `get_network_choices` with `provider_filter = {"geth"}` that
carries an explicit provider segment (exactly two colons: the forms `::p`,
`:n:p`, `e::p`, `e:n:p`) resolves to the provider `geth`; the also-yielded
network- and ecosystem-level shorthands instead resolve to default providers,
which need not be `geth` (see the counterexample). -/
theorem c2_geth_filter_amended {H : Hierarchy} (hw : WF H) {ef nf L : List String}
    (hok : get_network_choices H ef nf ["geth"] = Except.ok L) {s : String} (hs : s ∈ L)
    (hcount : countColons s.data = 2) :
    resolvedProviderName H s = some "geth" := by
  rw [choices_ok_eq hok] at hs
  obtain ⟨eco, hecoI, hseco⟩ := List.mem_flatMap.mp hs
  have he : eco ∈ H.ecosystems := by
    revert hecoI
    split
    · exact fun hm => hm
    · exact fun hm => (List.mem_filter.mp hm).1
  obtain ⟨hene, heco, -⟩ := hw.eco_name_ok eco he
  rcases mem_ecoChoices_cases hseco with ⟨net, hn, hsnet⟩ | hseq
  · obtain ⟨hene2, hnco, -⟩ := hw.net_name_ok eco he net hn
    obtain ⟨hsurv, hcases⟩ := mem_netChoices_cases hsnet
    rcases hcases with ⟨p, hpS, hpForms⟩ | ⟨hseq, hde⟩ | hseq
    · have hp : p ∈ net.providers := surviving_subset hpS
      have hpg : p = "geth" := by
        have := mem_of_containsStr (surviving_mem_pf (by decide) hpS)
        exact List.mem_singleton.mp this
      subst hpg
      rcases mem_providerForms_cases hpForms with ⟨rfl, hde, hdn⟩ | ⟨rfl, hde⟩ | ⟨rfl, hdn⟩ | rfl
      · exact resolvedProviderName_of_resolvesTo (resolve_form_dd hw he hn hp hde hdn)
      · exact resolvedProviderName_of_resolvesTo (resolve_form_np hw he hn hp hde)
      · exact resolvedProviderName_of_resolvesTo (resolve_form_ep hw he hn hp hdn)
      · exact resolvedProviderName_of_resolvesTo (resolve_form_full hw he hn hp)
    · subst hseq
      rw [dataAppend, colonData, List.singleton_append, countColons] at hcount
      rw [countColons_zero hnco] at hcount
      simp at hcount
    · subst hseq
      rw [dataAppend, dataAppend, colonData, countColons_append, countColons_append,
        countColons_zero heco, countColons_zero hnco] at hcount
      simp [countColons] at hcount
  · subst hseq
    rw [countColons_zero heco] at hcount
    cases hcount

/-- C2, witness: the amended guarantee applied to the concrete hierarchy
`Hmain`, the filter `{"geth"}` and the provider-level selector `"::geth"`. -/
theorem c2_geth_filter_amended_witness :
    ∃ L, get_network_choices Hmain [] [] ["geth"] = Except.ok L ∧ "::geth" ∈ L
      ∧ resolvedProviderName Hmain "::geth" = some "geth" := by
  have hw : WF Hmain := ⟨by decide, by decide, by decide, by decide, by decide⟩
  have hok : get_network_choices Hmain [] [] ["geth"]
      = Except.ok ["::geth", ":local:geth", "ethereum::geth", "ethereum:local:geth", ":local",
          "ethereum:local", ":mainnet:geth", "ethereum:mainnet:geth", ":mainnet",
          "ethereum:mainnet", "ethereum"] := rfl
  exact ⟨_, hok, by decide, c2_geth_filter_amended hw hok (by decide) (by decide)⟩

/-! ## C3: custom-network selectors -/

/-- C3, counterexample.  A bare custom-network indicator is claimed to produce
a provider handle "regardless of which ecosystems are registered", but
`create_custom_provider` begins with the attribute lookup `self.ethereum`:
in a hierarchy without an `ethereum` ecosystem the custom selector resolves
to an `ApeAttributeError` rather than a provider handle. -/
theorem c3_counterexample :
    _is_custom_network "https://rpc.example.com" = true
    ∧ get_provider_from_choice HnoDefault (some "https://rpc.example.com") Val.nil
      = Except.error (NetErr.apeAttributeError "ethereum") :=
  ⟨rfl, rfl⟩

/-- C3 (amended): every selector that is a bare custom-network indicator
bypasses selector parsing and hierarchy lookup of the selector's segments:
`get_provider_from_choice` routes it unchanged to the direct constructor
`create_custom_provider`.  There, provided an ecosystem named `ethereum` is
registered, an `http(s)://` string produces the URI-settings handle and an
`.ipc`-suffixed string the socket-settings handle, both named `geth` on
`ethereum`'s `custom` network; a custom indicator of any other shape (a
`ws://`/`wss://` scheme) is a scheme-not-supported resolution error, and a
missing `ethereum` ecosystem is an attribute-lookup resolution error. -/
theorem c3_custom_bypass_amended (H : Hierarchy) (s : String) (ps : Val)
    (hc : _is_custom_network s = true) :
    get_provider_from_choice H (some s) ps = create_custom_provider H s none
    ∧ (getattrEcosystem H "ethereum" = none →
        create_custom_provider H s none = Except.error (NetErr.apeAttributeError "ethereum"))
    ∧ (∀ eth, getattrEcosystem H "ethereum" = some eth →
        ((strStarts "https://".data s.data || strStarts "http://".data s.data) = true →
          create_custom_provider H s none = Except.ok
            { ecosystem := "ethereum", network := "custom", name := "geth",
              settings := Val.cons "uri" (Val.str s) Val.nil })
        ∧ ((strStarts "https://".data s.data || strStarts "http://".data s.data) = false →
            strEnds ".ipc".data s.data = true →
            create_custom_provider H s none = Except.ok
              { ecosystem := "ethereum", network := "custom", name := "geth",
                settings := Val.cons "ipc_path" (Val.str s) Val.nil })
        ∧ ((strStarts "https://".data s.data || strStarts "http://".data s.data) = false →
            strEnds ".ipc".data s.data = false →
            create_custom_provider H s none
              = Except.error (NetErr.networkError ("Scheme for " ++ s ++ " not yet supported.")))) := by
  refine ⟨?_, ?_, ?_⟩
  · rw [get_provider_from_choice, hc]
    rfl
  · intro hnone
    rw [create_custom_provider, hnone]
  · intro eth heth
    refine ⟨?_, ?_, ?_⟩
    · intro h1
      rw [create_custom_provider, heth]
      simp only [h1, if_true]
      rfl
    · intro h1 h2
      rw [create_custom_provider, heth]
      simp only [h1, h2, Bool.false_eq_true, if_false, if_true]
      rfl
    · intro h1 h2
      rw [create_custom_provider, heth]
      simp only [h1, h2, Bool.false_eq_true, if_false]

/-- C3, witness: the amended routing applied to `Hmain` (which registers
`ethereum`) and the concrete URI selector. -/
theorem c3_custom_bypass_amended_witness :
    get_provider_from_choice Hmain (some "https://rpc.example.com") Val.nil
      = create_custom_provider Hmain "https://rpc.example.com" none
    ∧ create_custom_provider Hmain "https://rpc.example.com" none
      = Except.ok { ecosystem := "ethereum", network := "custom", name := "geth",
                    settings := Val.cons "uri" (Val.str "https://rpc.example.com") Val.nil } := by
  have h := c3_custom_bypass_amended Hmain "https://rpc.example.com" Val.nil (by decide)
  exact ⟨h.1, (h.2.2 ecoEth rfl).1 (by decide)⟩

/-! ## C6: rejoining embedded-URI provider segments -/

/-- C6: when splitting a selector on `:` yields more than 3 segments, the
third-and-beyond segments are rejoined with `:` into a single provider
segment, and when that rejoined value is itself a custom-network indicator an
empty network segment is replaced by the literal `"custom"`. -/
theorem c6_rejoin_segments (s : String) (h : 3 < (pySplitColon s).length) :
    ∃ s0 s1 rest, pySplitColon s = s0 :: s1 :: rest
      ∧ parseSelections s
        = [s0,
           if _is_custom_network (joinColon rest) = true ∧ s1 = "" then "custom" else s1,
           joinColon rest] := by
  cases hsp : pySplitColon s with
  | nil => rw [hsp] at h; simp at h
  | cons s0 t1 =>
    cases t1 with
    | nil => rw [hsp] at h; simp at h
    | cons s1 t2 =>
      cases t2 with
      | nil => rw [hsp] at h; simp at h
      | cons s2 t3 =>
        cases t3 with
        | nil => rw [hsp] at h; simp at h
        | cons s3 r =>
          refine ⟨s0, s1, s2 :: s3 :: r, rfl, ?_⟩
          rw [parseSelections, hsp]
          by_cases hcu : _is_custom_network (joinColon (s2 :: s3 :: r)) = true
          · by_cases h1 : s1 = "" <;> simp [hcu, h1]
          · have hcu2 : _is_custom_network (joinColon (s2 :: s3 :: r)) = false := by
              revert hcu
              cases _is_custom_network (joinColon (s2 :: s3 :: r)) <;> simp
            simp [hcu2]

/-- C6, witness: the rejoin applied to the concrete selector
`"::http://foo"`, whose provider value is an embedded URI and whose network
segment is empty. -/
theorem c6_rejoin_segments_witness :
    3 < (pySplitColon "::http://foo").length
    ∧ ∃ s0 s1 rest, pySplitColon "::http://foo" = s0 :: s1 :: rest
      ∧ parseSelections "::http://foo"
        = [s0,
           if _is_custom_network (joinColon rest) = true ∧ s1 = "" then "custom" else s1,
           joinColon rest] :=
  ⟨by decide, c6_rejoin_segments "::http://foo" (by decide)⟩

/-! ## C10: custom providers live on ethereum's custom network -/

/-- C10: every connection string accepted by `create_custom_provider` (with no
explicit provider name and the default provider class) yields a handle on the
`ethereum` ecosystem's network named `custom` with provider name `geth`; a
hierarchy without an `ethereum` ecosystem yields no handle at all; and the
outcome is independent of the configured default-ecosystem name. -/
theorem c10_custom_provider_ethereum (H : Hierarchy) (s : String) (pr : Provider) :
    (create_custom_provider H s none = Except.ok pr →
      pr.ecosystem = "ethereum" ∧ pr.network = "custom" ∧ pr.name = "geth")
    ∧ (getattrEcosystem H "ethereum" = none →
        ∀ r : Provider, create_custom_provider H s none ≠ Except.ok r)
    ∧ (∀ d : String,
        create_custom_provider { ecosystems := H.ecosystems, defaultEcosystemName := d } s none
          = create_custom_provider H s none) := by
  refine ⟨?_, ?_, ?_⟩
  · intro h
    rw [create_custom_provider] at h
    cases heth : getattrEcosystem H "ethereum" with
    | none =>
      rw [heth] at h
      cases h
    | some eth =>
      rw [heth] at h
      by_cases h1 : (strStarts "https://".data s.data || strStarts "http://".data s.data) = true
      · rw [if_pos h1] at h
        injection h with h3
        subst h3
        exact ⟨rfl, rfl, rfl⟩
      · rw [if_neg h1] at h
        by_cases h2 : strEnds ".ipc".data s.data = true
        · rw [if_pos h2] at h
          injection h with h3
          subst h3
          exact ⟨rfl, rfl, rfl⟩
        · rw [if_neg h2] at h
          cases h
  · intro hnone r hok
    rw [create_custom_provider, hnone] at hok
    cases hok
  · intro d
    rfl

/-- C10, witness: `create_custom_provider` on `Hmain` with the concrete URI
connection string yields `customUriHandle`, whose triple is
(`ethereum`, `custom`, `geth`). -/
theorem c10_custom_provider_ethereum_witness :
    customUriHandle.ecosystem = "ethereum"
    ∧ customUriHandle.network = "custom"
    ∧ customUriHandle.name = "geth" :=
  (c10_custom_provider_ethereum Hmain "https://rpc.example.com" customUriHandle).1 rfl

/-! ## C4: fork block-number resolution -/

theorem overlayDict_nil_single (k : String) (v : Val) :
    overlayDict Val.nil (Val.cons k v Val.nil) = Val.cons k v Val.nil := by
  simp [overlayDict, insertOverlay]

theorem lookup_fork_block (eco net : String) (b : Int) (up : Val) :
    lookupPath
      (Val.cons "fork"
        (Val.cons eco (Val.cons net (Val.cons "block_number" (Val.int b) up) Val.nil) Val.nil)
        Val.nil)
      ["fork", eco, net, "block_number"] = some (Val.int b) := by
  simp [lookupPath, dictLookup]

/-- C4: on a connected network whose head height is `hh`, a negative caller
block number `b` resolves the fork block number to `hh + b` (so `-1` gives
`hh - 1`); when `hh + b` is still negative the fork is the "forked past
genesis" resolution error instead of a handle; a non-negative `b` is used
unchanged. -/
theorem c4_fork_block_number (conn : ConnectedState) (fnet : Network) (hh : Nat)
    (hf : conn.ecosystem.get_network (conn.networkName ++ "-fork") = Except.ok fnet)
    (hp : fnet.providers ≠ []) (hhead : conn.headNumber = some hh) :
    (∀ b : Int, b < 0 → 0 ≤ Int.ofNat hh + b →
      ∃ pr, fork conn none Val.nil (some b) = Except.ok pr
        ∧ lookupPath pr.settings ["fork", conn.ecosystem.name, conn.networkName, "block_number"]
            = some (Val.int (Int.ofNat hh + b)))
    ∧ (∀ b : Int, b < 0 → Int.ofNat hh + b < 0 →
        fork conn none Val.nil (some b)
          = Except.error (NetErr.networkError "Unable to fork past genesis block."))
    ∧ (∀ b : Int, 0 ≤ b →
        ∃ pr, fork conn none Val.nil (some b) = Except.ok pr
          ∧ lookupPath pr.settings ["fork", conn.ecosystem.name, conn.networkName, "block_number"]
              = some (Val.int b)) := by
  cases hq : fnet.providers with
  | nil => exact absurd hq hp
  | cons q rest =>
    refine ⟨?_, ?_, ?_⟩
    · intro b hb hge
      rw [fork, hf]
      simp only [bindOk, hhead, Option.getD, if_pos hb, if_neg (not_lt.mpr hge)]
      rw [get_provider_default conn.ecosystem.name _ hq]
      refine ⟨_, rfl, ?_⟩
      simp only [overlayDict_nil_single]
      exact lookup_fork_block conn.ecosystem.name conn.networkName (Int.ofNat hh + b) _
    · intro b hb hlt
      rw [fork, hf]
      simp only [bindOk, hhead, Option.getD, if_pos hb, if_pos hlt]
      rfl
    · intro b hge
      rw [fork, hf]
      simp only [bindOk, if_neg (not_lt.mpr hge)]
      rw [get_provider_default conn.ecosystem.name _ hq]
      refine ⟨_, rfl, ?_⟩
      simp only [overlayDict_nil_single]
      exact lookup_fork_block conn.ecosystem.name conn.networkName b _

/-- C4, witness: forking `connMain` (head height 100) with `block_number = -1`
produces a handle whose derived fork block number is 99. -/
theorem c4_fork_block_number_witness :
    ∃ pr, fork connMain none Val.nil (some (-1)) = Except.ok pr
      ∧ lookupPath pr.settings ["fork", connMain.ecosystem.name, connMain.networkName,
          "block_number"] = some (Val.int (Int.ofNat 100 + (-1))) :=
  (c4_fork_block_number connMain netMainFork 100 rfl (by decide) rfl).1 (-1) (by decide)
    (by decide)

/-! ## C5: deep-merged fork settings -/

theorem insertOverlay_isDict {m : Val} (k : String) (ov : Val) (hm : m.isDictVal = true) :
    (insertOverlay m k ov).isDictVal = true := by
  cases m with
  | nil => simp [insertOverlay, Val.isDictVal]
  | cons k2 v2 rest =>
    rw [insertOverlay]
    split
    · simp [Val.isDictVal]
    · simp [Val.isDictVal]
  | str s => simp [Val.isDictVal] at hm
  | int i => simp [Val.isDictVal] at hm

mutual

theorem overlayDict_wf (m o : Val) (hm : m.wf = true) (ho : o.wf = true) :
    (overlayDict m o).wf = true := by
  cases o with
  | cons k ov orest =>
    rw [overlayDict]
    simp only [Val.wf, Bool.and_eq_true] at ho
    exact overlayDict_wf (insertOverlay m k ov) orest (insertOverlay_wf m k ov hm ho.1.1)
      ho.1.2
  | nil => simpa [overlayDict] using hm
  | str s => simpa [overlayDict] using hm
  | int i => simpa [overlayDict] using hm
termination_by (sizeOf o, sizeOf m)

theorem insertOverlay_wf (m : Val) (k : String) (ov : Val) (hm : m.wf = true)
    (hov : ov.wf = true) : (insertOverlay m k ov).wf = true := by
  cases m with
  | nil => simp [insertOverlay, Val.wf, Val.isDictVal, hov]
  | str s => simpa [insertOverlay] using hm
  | int i => simpa [insertOverlay] using hm
  | cons k2 v2 rest =>
    simp only [Val.wf, Bool.and_eq_true] at hm
    rw [insertOverlay]
    split
    · simp only [Val.wf, Bool.and_eq_true]
      refine ⟨⟨?_, hm.1.2⟩, hm.2⟩
      split
      · exact overlayDict_wf v2 ov hm.1.1 hov
      · exact hm.1.1
    · simp only [Val.wf, Bool.and_eq_true]
      exact ⟨⟨hm.1.1, insertOverlay_wf rest k ov hm.1.2 hov⟩, insertOverlay_isDict k ov hm.2⟩
termination_by (sizeOf ov, sizeOf m)

end

mutual

/-- Deep-merging derived settings never changes a leaf the caller supplied:
any non-dict value reachable in the caller mapping at some key path is still
at that path after `overlayDict`. -/
theorem lookupPath_overlay_caller (m o : Val) (path : List String) (v : Val)
    (hm : m.wf = true) (ho : o.wf = true) (hv : v.isDictVal = false)
    (h : lookupPath m path = some v) :
    lookupPath (overlayDict m o) path = some v := by
  cases o with
  | cons k ov orest =>
    rw [overlayDict]
    simp only [Val.wf, Bool.and_eq_true] at ho
    exact lookupPath_overlay_caller (insertOverlay m k ov) orest path v
      (insertOverlay_wf m k ov hm ho.1.1) ho.1.2 hv
      (lookupPath_insert_caller m k ov path v hm ho.1.1 hv h)
  | nil => simpa [overlayDict] using h
  | str s => simpa [overlayDict] using h
  | int i => simpa [overlayDict] using h
termination_by (sizeOf o, sizeOf m)

/-- One derived entry merged into the caller mapping never changes a caller
leaf. -/
theorem lookupPath_insert_caller (m : Val) (k : String) (ov : Val) (path : List String)
    (v : Val) (hm : m.wf = true) (hov : ov.wf = true) (hv : v.isDictVal = false)
    (h : lookupPath m path = some v) :
    lookupPath (insertOverlay m k ov) path = some v := by
  cases m with
  | str s => simpa [insertOverlay] using h
  | int i => simpa [insertOverlay] using h
  | nil =>
    cases path with
    | nil =>
      rw [lookupPath] at h
      injection h with h2
      rw [← h2] at hv
      simp [Val.isDictVal] at hv
    | cons key p2 =>
      rw [lookupPath] at h
      simp [dictLookup] at h
  | cons k2 v2 rest =>
    simp only [Val.wf, Bool.and_eq_true] at hm
    cases path with
    | nil =>
      rw [lookupPath] at h
      injection h with h2
      rw [← h2] at hv
      simp [Val.isDictVal] at hv
    | cons key p2 =>
      rw [lookupPath] at h
      rw [insertOverlay]
      by_cases hk : k2 = k
      · rw [if_pos hk, lookupPath]
        by_cases hkey : k2 = key
        · rw [dictLookup, if_pos hkey] at h
          rw [dictLookup, if_pos hkey]
          dsimp only at h ⊢
          split
          · next hd =>
            simp only [Bool.and_eq_true] at hd
            exact lookupPath_overlay_caller v2 ov p2 v hm.1.1 hov hv h
          · exact h
        · rw [dictLookup, if_neg hkey] at h
          rw [dictLookup, if_neg hkey]
          exact h
      · rw [if_neg hk, lookupPath]
        by_cases hkey : k2 = key
        · rw [dictLookup, if_pos hkey] at h
          rw [dictLookup, if_pos hkey]
          exact h
        · rw [dictLookup, if_neg hkey] at h
          rw [dictLookup, if_neg hkey]
          have h2 : lookupPath rest (key :: p2) = some v := by
            rw [lookupPath]
            exact h
          have h3 := lookupPath_insert_caller rest k ov (key :: p2) v hm.1.2 hov hv h2
          rw [lookupPath] at h3
          exact h3
termination_by (sizeOf ov, sizeOf m)

end

theorem get_provider_ok_settings {net : Network} {en : String} {pname : Option String}
    {st : Val} {pr : Provider} (h : net.get_provider en pname st = Except.ok pr) :
    pr.settings = st := by
  rw [Network.get_provider.eq_def] at h
  dsimp only at h
  split at h
  · cases h
  · split at h
    · injection h with h2
      rw [← h2]
    · cases h

theorem fork_ok_settings (conn : ConnectedState) (pn : Option String) (ps : Val)
    (bn : Option Int) (pr : Provider) (hok : fork conn pn ps bn = Except.ok pr) :
    ∃ fs : Val, fs.wf = true
      ∧ pr.settings = overlayDict ps
          (Val.cons "fork"
            (Val.cons conn.ecosystem.name (Val.cons conn.networkName fs Val.nil) Val.nil)
            Val.nil) := by
  rw [fork] at hok
  cases hg : conn.ecosystem.get_network (conn.networkName ++ "-fork") with
  | error e =>
    rw [hg] at hok
    cases hok
  | ok fnet =>
    rw [hg] at hok
    dsimp only at hok
    rw [bindOk] at hok
    cases bn with
    | none =>
      dsimp only at hok
      rw [bindOk] at hok
      dsimp only at hok
      refine ⟨_, ?_, get_provider_ok_settings hok⟩
      split
      · rfl
      · rfl
    | some b =>
      dsimp only at hok
      by_cases hb : b < 0
      · rw [if_pos hb] at hok
        by_cases h2 : Int.ofNat (conn.headNumber.getD 0) + b < 0
        · rw [if_pos h2, bindErr] at hok
          cases hok
        · rw [if_neg h2, bindOk] at hok
          dsimp only at hok
          refine ⟨_, ?_, get_provider_ok_settings hok⟩
          simp only [Val.wf, Bool.and_eq_true]
          refine ⟨⟨trivial, ?_⟩, ?_⟩
          · split
            · rfl
            · rfl
          · split
            · rfl
            · rfl
      · rw [if_neg hb, bindOk] at hok
        dsimp only at hok
        refine ⟨_, ?_, get_provider_ok_settings hok⟩
        simp only [Val.wf, Bool.and_eq_true]
        refine ⟨⟨trivial, ?_⟩, ?_⟩
        · split
          · rfl
          · rfl
        · split
          · rfl
          · rfl

/-- C5: whenever `fork` produces a handle, that handle's settings are exactly
the caller-supplied settings deep-merged (caller wins) with the derived fork
settings nested under the key path `fork -> ecosystem name -> network name`;
in particular every non-dict value the caller supplied at any key path
survives unchanged in the handle's settings. -/
theorem c5_fork_settings_overlay (conn : ConnectedState) (pn : Option String) (ps : Val)
    (bn : Option Int) (pr : Provider) (hwf : ps.wf = true)
    (hok : fork conn pn ps bn = Except.ok pr) :
    (∃ fs : Val, pr.settings = overlayDict ps
        (Val.cons "fork"
          (Val.cons conn.ecosystem.name (Val.cons conn.networkName fs Val.nil) Val.nil)
          Val.nil))
    ∧ ∀ (path : List String) (v : Val), v.isDictVal = false →
        lookupPath ps path = some v → lookupPath pr.settings path = some v := by
  obtain ⟨fs, hfswf, hset⟩ := fork_ok_settings conn pn ps bn pr hok
  refine ⟨⟨fs, hset⟩, ?_⟩
  intro path v hv h
  rw [hset]
  refine lookupPath_overlay_caller ps _ path v hwf ?_ hv h
  simp [Val.wf, Val.isDictVal, hfswf]

/-- C5, witness: forking `connMain` with the caller override `psOverride`
keeps the caller's `block_number = 5` at its nested key path in the handle's
settings. -/
theorem c5_fork_settings_overlay_witness :
    ∃ pr, fork connMain none psOverride none = Except.ok pr
      ∧ lookupPath pr.settings ["fork", "ethereum", "mainnet", "block_number"]
          = some (Val.int 5) := by
  have hok : fork connMain none psOverride none = Except.ok forkResultW := by
    simp [fork, connMain, ecoEth, netLocal, netMain, netMainFork, Ecosystem.get_network,
      Network.get_provider, Network.default_provider, psOverride, forkResultW,
      overlayDict, insertOverlay, Val.isDictVal, containsStr, bindOk, List.find?]
  have h := c5_fork_settings_overlay connMain none psOverride none forkResultW rfl hok
  exact ⟨forkResultW, hok,
    h.2 ["fork", "ethereum", "mainnet", "block_number"] (Val.int 5) rfl rfl⟩

/-! ## C7: idempotent registration -/

theorem registerLoop_calls (env : PluginEnv) : ∀ (l : List String) (s s2 : PMState),
    registerLoop env s l = Except.ok s2 →
    s2.importCalls = s.importCalls + l.length ∧ s2.registered = s.registered := by
  intro l
  induction l with
  | nil =>
    intro s s2 h
    rw [registerLoop] at h
    injection h with h2
    rw [← h2]
    exact ⟨rfl, rfl⟩
  | cons m rest ih =>
    intro s s2 h
    rw [registerLoop, registerStep] at h
    by_cases hf : containsStr env.importFails m = true
    · rw [if_pos hf] at h
      by_cases hc : containsStr env.coreModules m = true
      · rw [if_pos hc] at h
        cases h
      · rw [if_neg hc] at h
        dsimp only at h
        obtain ⟨h1, h2⟩ := ih _ s2 h
        refine ⟨?_, h2⟩
        rw [h1]
        simp [List.length_cons]
        omega
    · rw [if_neg hf] at h
      dsimp only at h
      obtain ⟨h1, h2⟩ := ih _ s2 h
      refine ⟨?_, h2⟩
      rw [h1]
      simp [List.length_cons]
      omega

theorem register_plugins_registered (env : PluginEnv) (s : PMState)
    (h : s.registered = true) : _register_plugins env s = Except.ok s := by
  rw [_register_plugins, if_pos h]

theorem registerN_of_registered (env : PluginEnv) (s : PMState) (h : s.registered = true) :
    ∀ n : Nat, registerN env s n = Except.ok s := by
  intro n
  induction n with
  | zero => rfl
  | succ k ih =>
    rw [registerN, register_plugins_registered env s h]
    exact ih

/-- C7: starting from an unregistered state, the registration step performs
exactly one import per discovered module, sets the registered flag, every
further call (so `registerN` for every `n + 1`) returns the same state with
no further imports, and any attribute-style contribution query on the
registered state performs no further imports or module registrations. -/
theorem c7_register_idempotent (env : PluginEnv) (s0 s1 : PMState)
    (h0 : s0.registered = false) (h1 : _register_plugins env s0 = Except.ok s1) :
    s1.importCalls = s0.importCalls + env.pluginModules.length
    ∧ s1.registered = true
    ∧ (∀ n : Nat, registerN env s0 (n + 1) = Except.ok s1)
    ∧ ∀ (hookEnv : List (String × HookResult)) (y : List (String × ApiObj))
        (w : List String) (s2 : PMState),
        pm_getattr env hookEnv s1 = Except.ok (y, w, s2) →
        s2.importCalls = s1.importCalls ∧ s2.registeredModules = s1.registeredModules := by
  rw [_register_plugins] at h1
  rw [if_neg (by simp [h0])] at h1
  cases hl : registerLoop env s0 env.pluginModules with
  | error e =>
    rw [hl] at h1
    cases h1
  | ok s2 =>
    rw [hl] at h1
    injection h1 with h2
    obtain ⟨hc, -⟩ := registerLoop_calls env env.pluginModules s0 s2 hl
    have hreg : s1.registered = true := by rw [← h2]
    refine ⟨by rw [← h2]; exact hc, hreg, ?_, ?_⟩
    · intro n
      rw [registerN, _register_plugins, if_neg (by simp [h0]), hl]
      dsimp only
      rw [h2]
      exact registerN_of_registered env s1 hreg n
    · intro hookEnv y w s3 hq
      rw [pm_getattr, register_plugins_registered env s1 hreg] at hq
      dsimp only at hq
      simp only [Except.ok.injEq, Prod.mk.injEq] at hq
      obtain ⟨-, -, hs3⟩ := hq
      rw [← hs3]
      exact ⟨rfl, rfl⟩

/-- C7, witness: a two-module environment with one failing third-party module;
one call imports both modules once, a second call changes nothing, and a
query on the registered state imports nothing further. -/
theorem c7_register_idempotent_witness :
    ∃ s1, _register_plugins envC7 s0W = Except.ok s1
      ∧ s1.importCalls = 0 + 2 ∧ s1.registered = true
      ∧ registerN envC7 s1 1 = Except.ok s1
      ∧ ∃ s2, pm_getattr envC7 [] s1 = Except.ok ([], [], s2)
          ∧ s2.importCalls = s1.importCalls := by
  have h := c7_register_idempotent envC7 s0W s1C7 rfl rfl
  exact ⟨s1C7, rfl, h.1, h.2.1, registerN_of_registered _ _ h.2.1 1,
    s1C7, rfl, (h.2.2.2 [] [] [] s1C7 rfl).1⟩

/-! ## C8: import-failure handling -/

theorem registerLoop_no_core (env : PluginEnv) : ∀ (l : List String) (s : PMState),
    (∀ m ∈ l, containsStr env.importFails m = true → containsStr env.coreModules m = false) →
    ∃ s2, registerLoop env s l = Except.ok s2
      ∧ s2.registeredModules
          = s.registeredModules ++ l.filter (fun m => !(containsStr env.importFails m))
      ∧ s2.warnings
          = s.warnings ++ (l.filter fun m => containsStr env.importFails m).map importWarnMsg
      ∧ s2.registered = s.registered := by
  intro l
  induction l with
  | nil =>
    intro s hnc
    exact ⟨s, rfl, by simp, by simp, rfl⟩
  | cons m rest ih =>
    intro s hnc
    by_cases hf : containsStr env.importFails m = true
    · have hc : containsStr env.coreModules m = false := hnc m (List.mem_cons_self m rest) hf
      obtain ⟨s2, hl, hr, hw, hreg⟩ :=
        ih { s with importCalls := s.importCalls + 1,
                    warnings := s.warnings ++ [importWarnMsg m] }
          (fun x hx => hnc x (List.mem_cons_of_mem m hx))
      refine ⟨s2, ?_, ?_, ?_, hreg⟩
      · rw [registerLoop, registerStep, if_pos hf, if_neg (by simp [hc])]
        exact hl
      · rw [hr]
        simp [List.filter_cons, hf]
      · rw [hw]
        simp [List.filter_cons, hf]
    · obtain ⟨s2, hl, hr, hw, hreg⟩ :=
        ih { s with importCalls := s.importCalls + 1,
                    registeredModules := s.registeredModules ++ [m] }
          (fun x hx => hnc x (List.mem_cons_of_mem m hx))
      refine ⟨s2, ?_, ?_, ?_, hreg⟩
      · rw [registerLoop, registerStep, if_neg hf]
        exact hl
      · rw [hr]
        simp [List.filter_cons, hf]
      · rw [hw]
        simp [List.filter_cons, hf]

theorem registerLoop_core_fail (env : PluginEnv) : ∀ (l : List String) (s : PMState),
    (∃ m ∈ l, containsStr env.importFails m = true ∧ containsStr env.coreModules m = true) →
    ∃ e, registerLoop env s l = Except.error e := by
  intro l
  induction l with
  | nil =>
    intro s h
    obtain ⟨m, hm, -⟩ := h
    cases hm
  | cons m rest ih =>
    intro s h
    by_cases hf : containsStr env.importFails m = true
    · by_cases hc : containsStr env.coreModules m = true
      · refine ⟨m, ?_⟩
        rw [registerLoop, registerStep, if_pos hf, if_pos hc]
      · obtain ⟨m0, hm0, hm0f, hm0c⟩ := h
        have hm0r : m0 ∈ rest := by
          rcases List.mem_cons.mp hm0 with h1 | h2
          · subst h1
            rw [hm0c] at hc
            exact absurd rfl hc
          · exact h2
        obtain ⟨e, he⟩ := ih _ ⟨m0, hm0r, hm0f, hm0c⟩
        refine ⟨e, ?_⟩
        rw [registerLoop, registerStep, if_pos hf, if_neg (by simp [hc])]
        exact he
    · obtain ⟨m0, hm0, hm0f, hm0c⟩ := h
      have hm0r : m0 ∈ rest := by
        rcases List.mem_cons.mp hm0 with h1 | h2
        · subst h1
          rw [hm0f] at hf
          exact absurd rfl hf
        · exact h2
      obtain ⟨e, he⟩ := ih _ ⟨m0, hm0r, hm0f, hm0c⟩
      refine ⟨e, ?_⟩
      rw [registerLoop, registerStep, if_neg hf]
      exact he

/-- C8: from a fresh state, when every failing module is third-party the
registration completes: the failing modules are absent from the registered
set, each gets its logged warning, the surviving modules are all registered
and the registry finishes registered; while a failing module from the
bundled/core set makes the whole registration step re-raise. -/
theorem c8_import_failure_handling (env : PluginEnv) (s0 : PMState)
    (h0 : s0.registered = false) (hreg0 : s0.registeredModules = [])
    (hw0 : s0.warnings = []) :
    ((∀ m ∈ env.pluginModules, containsStr env.importFails m = true →
        containsStr env.coreModules m = false) →
      ∃ s1, _register_plugins env s0 = Except.ok s1
        ∧ s1.registered = true
        ∧ s1.registeredModules
            = env.pluginModules.filter (fun m => !(containsStr env.importFails m))
        ∧ s1.warnings
            = (env.pluginModules.filter fun m => containsStr env.importFails m).map
                importWarnMsg)
    ∧ ((∃ m ∈ env.pluginModules, containsStr env.importFails m = true
          ∧ containsStr env.coreModules m = true) →
        ∃ e, _register_plugins env s0 = Except.error e) := by
  constructor
  · intro hnc
    obtain ⟨s2, hl, hr, hw, -⟩ := registerLoop_no_core env env.pluginModules s0 hnc
    refine ⟨{ s2 with registered := true }, ?_, rfl, ?_, ?_⟩
    · rw [_register_plugins, if_neg (by simp [h0]), hl]
    · show s2.registeredModules = _
      rw [hr, hreg0]
      simp
    · show s2.warnings = _
      rw [hw, hw0]
      simp
  · intro hex
    obtain ⟨e, he⟩ := registerLoop_core_fail env env.pluginModules s0 hex
    refine ⟨e, ?_⟩
    rw [_register_plugins, if_neg (by simp [h0]), he]

/-- C8, witness: both halves at a concrete environment — a failing
third-party module is tolerated with a warning, and a failing core module is
fatal. -/
theorem c8_import_failure_handling_witness :
    (∃ s1, _register_plugins
        { pluginModules := ["ape_one", "ape_two"], coreModules := ["ape_one"],
          importFails := ["ape_two"] }
        { registered := false, registeredModules := [], importCalls := 0, warnings := [],
          unimplementedPlugins := [] } = Except.ok s1
      ∧ s1.registered = true
      ∧ s1.registeredModules = ["ape_one"]
      ∧ s1.warnings = [importWarnMsg "ape_two"])
    ∧ ∃ e, _register_plugins
        { pluginModules := ["ape_one", "ape_two"], coreModules := ["ape_one"],
          importFails := ["ape_one"] }
        { registered := false, registeredModules := [], importCalls := 0, warnings := [],
          unimplementedPlugins := [] } = Except.error e := by
  constructor
  · obtain ⟨s1, h1, h2, h3, h4⟩ :=
      (c8_import_failure_handling
        { pluginModules := ["ape_one", "ape_two"], coreModules := ["ape_one"],
          importFails := ["ape_two"] }
        { registered := false, registeredModules := [], importCalls := 0, warnings := [],
          unimplementedPlugins := [] } rfl rfl rfl).1 (by decide)
    exact ⟨s1, h1, h2, h3, h4⟩
  · exact (c8_import_failure_handling
      { pluginModules := ["ape_one", "ape_two"], coreModules := ["ape_one"],
        importFails := ["ape_one"] }
      { registered := false, registeredModules := [], importCalls := 0, warnings := [],
        unimplementedPlugins := [] } rfl rfl rfl).2 ⟨"ape_one", by decide, rfl, rfl⟩

/-! ## C9: capability validation and warning dedup -/

theorem processContribs_yield (l : List (String × ApiObj)) : ∀ us : List String,
    (processContribs us l).1
      = l.filterMap fun pr =>
          if valid_impl pr.2 then some (clean_plugin_name pr.1, pr.2) else none := by
  induction l with
  | nil => intro us; rfl
  | cons pr rest ih =>
    intro us
    obtain ⟨n, o⟩ := pr
    rw [processContribs]
    by_cases hv : valid_impl o = true
    · rw [if_pos hv]
      dsimp only
      rw [ih us, List.filterMap_cons]
      simp [hv]
    · have hv2 : valid_impl o = false := by
        revert hv
        cases valid_impl o <;> simp
      rw [if_neg hv]
      by_cases hd : containsStr us n = true
      · rw [if_pos hd, ih us, List.filterMap_cons]
        simp [hv2]
      · rw [if_neg hd]
        dsimp only
        rw [ih (us ++ [n]), List.filterMap_cons]
        simp [hv2]

theorem processContribs_state (l : List (String × ApiObj)) : ∀ us : List String,
    (processContribs us l).2.1 = us ++ (processContribs us l).2.2 := by
  induction l with
  | nil => intro us; simp [processContribs]
  | cons pr rest ih =>
    intro us
    obtain ⟨n, o⟩ := pr
    rw [processContribs]
    by_cases hv : valid_impl o = true
    · rw [if_pos hv]
      dsimp only
      exact ih us
    · rw [if_neg hv]
      by_cases hd : containsStr us n = true
      · rw [if_pos hd]
        exact ih us
      · rw [if_neg hd]
        dsimp only
        rw [ih (us ++ [n])]
        simp

theorem processContribs_warn_mem (l : List (String × ApiObj)) : ∀ (us : List String) (n : String),
    n ∈ (processContribs us l).2.2 ↔
      (¬ n ∈ us ∧ ∃ o, (n, o) ∈ l ∧ valid_impl o = false) := by
  induction l with
  | nil =>
    intro us n
    simp [processContribs]
  | cons pr rest ih =>
    intro us n
    obtain ⟨n0, o0⟩ := pr
    rw [processContribs]
    by_cases hv : valid_impl o0 = true
    · rw [if_pos hv]
      dsimp only
      rw [ih us n]
      constructor
      · rintro ⟨h1, o, h2, h3⟩
        exact ⟨h1, o, List.mem_cons_of_mem _ h2, h3⟩
      · rintro ⟨h1, o, h2, h3⟩
        rcases List.mem_cons.mp h2 with he | hm
        · rw [Prod.mk.injEq] at he
          rw [he.2] at h3
          rw [hv] at h3
          cases h3
        · exact ⟨h1, o, hm, h3⟩
    · have hv2 : valid_impl o0 = false := by
        revert hv
        cases valid_impl o0 <;> simp
      rw [if_neg hv]
      by_cases hd : containsStr us n0 = true
      · rw [if_pos hd, ih us n]
        constructor
        · rintro ⟨h1, o, h2, h3⟩
          exact ⟨h1, o, List.mem_cons_of_mem _ h2, h3⟩
        · rintro ⟨h1, o, h2, h3⟩
          rcases List.mem_cons.mp h2 with he | hm
          · rw [Prod.mk.injEq] at he
            rw [he.1] at h1
            exact absurd (mem_of_containsStr hd) h1
          · exact ⟨h1, o, hm, h3⟩
      · rw [if_neg hd]
        dsimp only
        rw [List.mem_cons, ih (us ++ [n0]) n]
        constructor
        · rintro (rfl | ⟨h1, o, h2, h3⟩)
          · refine ⟨fun hmem => hd (containsStr_of_mem hmem), o0, List.mem_cons_self _ _, hv2⟩
          · have h1b : ¬ n ∈ us := fun hmem => h1 (List.mem_append_left _ hmem)
            exact ⟨h1b, o, List.mem_cons_of_mem _ h2, h3⟩
        · rintro ⟨h1, o, h2, h3⟩
          rcases List.mem_cons.mp h2 with he | hm
          · left
            rw [Prod.mk.injEq] at he
            exact he.1
          · by_cases hnn : n = n0
            · exact Or.inl hnn
            · right
              refine ⟨?_, o, hm, h3⟩
              intro hmem
              rcases List.mem_append.mp hmem with ha | hb
              · exact h1 ha
              · exact hnn (List.mem_singleton.mp hb)

theorem processContribs_warn_nodup (l : List (String × ApiObj)) : ∀ us : List String,
    (processContribs us l).2.2.Nodup := by
  induction l with
  | nil => intro us; simp [processContribs]
  | cons pr rest ih =>
    intro us
    obtain ⟨n0, o0⟩ := pr
    rw [processContribs]
    by_cases hv : valid_impl o0 = true
    · rw [if_pos hv]
      exact ih us
    · rw [if_neg hv]
      by_cases hd : containsStr us n0 = true
      · rw [if_pos hd]
        exact ih us
      · rw [if_neg hd]
        dsimp only
        rw [List.nodup_cons]
        refine ⟨?_, ih (us ++ [n0])⟩
        intro hmem
        have hh := (processContribs_warn_mem rest (us ++ [n0]) n0).mp hmem
        exact hh.1 (List.mem_append_right _ (List.mem_singleton.mpr rfl))

theorem registerLoop_unimpl (env : PluginEnv) : ∀ (l : List String) (s s2 : PMState),
    registerLoop env s l = Except.ok s2 →
    s2.unimplementedPlugins = s.unimplementedPlugins := by
  intro l
  induction l with
  | nil =>
    intro s s2 h
    rw [registerLoop] at h
    injection h with h2
    rw [← h2]
  | cons m rest ih =>
    intro s s2 h
    rw [registerLoop, registerStep] at h
    by_cases hf : containsStr env.importFails m = true
    · rw [if_pos hf] at h
      by_cases hc : containsStr env.coreModules m = true
      · rw [if_pos hc] at h
        cases h
      · rw [if_neg hc] at h
        dsimp only at h
        have h3 := ih _ s2 h
        exact h3
    · rw [if_neg hf] at h
      dsimp only at h
      have h3 := ih _ s2 h
      exact h3

theorem register_plugins_ok_state (env : PluginEnv) (s s2 : PMState)
    (h : _register_plugins env s = Except.ok s2) :
    s2.registered = true ∧ s2.unimplementedPlugins = s.unimplementedPlugins := by
  rw [_register_plugins] at h
  by_cases hr : s.registered = true
  · rw [if_pos hr] at h
    injection h with h2
    rw [← h2]
    exact ⟨hr, rfl⟩
  · rw [if_neg hr] at h
    cases hl : registerLoop env s env.pluginModules with
    | error e =>
      rw [hl] at h
      cases h
    | ok s3 =>
      rw [hl] at h
      injection h with h2
      rw [← h2]
      exact ⟨rfl, registerLoop_unimpl env env.pluginModules s s3 hl⟩

/-- C9: querying a hook category yields exactly the valid contributions (under
cleaned plugin names) — an invalid contribution is dropped without blocking
the others — and each plugin name with an invalid contribution is warned
about exactly once for the process lifetime: the first query's warnings are
duplicate-free and name exactly the invalid plugins, and a repeated query
yields the same contributions with no further warnings. -/
theorem c9_validation_warnings (env : PluginEnv) (hookEnv : List (String × HookResult))
    (s0 : PMState) (y1 y2 : List (String × ApiObj)) (w1 w2 : List String) (s1 s2 : PMState)
    (hu : s0.unimplementedPlugins = [])
    (h1 : pm_getattr env hookEnv s0 = Except.ok (y1, w1, s1))
    (h2 : pm_getattr env hookEnv s1 = Except.ok (y2, w2, s2)) :
    y1 = (expandHookResults hookEnv).filterMap (fun pr =>
        if valid_impl pr.2 then some (clean_plugin_name pr.1, pr.2) else none)
    ∧ w1.Nodup
    ∧ (∀ n, n ∈ w1 ↔ ∃ o, (n, o) ∈ expandHookResults hookEnv ∧ valid_impl o = false)
    ∧ y2 = y1
    ∧ w2 = [] := by
  rw [pm_getattr] at h1
  cases hr0 : _register_plugins env s0 with
  | error e =>
    rw [hr0] at h1
    cases h1
  | ok s0b =>
    rw [hr0] at h1
    dsimp only at h1
    obtain ⟨hregb, hub⟩ := register_plugins_ok_state env s0 s0b hr0
    rw [hub, hu] at h1
    simp only [Except.ok.injEq, Prod.mk.injEq] at h1
    obtain ⟨hy1, hw1, hs1⟩ := h1
    have hs1u : s1.unimplementedPlugins
        = (processContribs [] (expandHookResults hookEnv)).2.1 := by
      rw [← hs1]
    have hs1r : s1.registered = true := by
      rw [← hs1]
      exact hregb
    rw [pm_getattr, register_plugins_registered env s1 hs1r] at h2
    dsimp only at h2
    simp only [Except.ok.injEq, Prod.mk.injEq] at h2
    obtain ⟨hy2, hw2, -⟩ := h2
    have hstate := processContribs_state (expandHookResults hookEnv) []
    refine ⟨?_, ?_, ?_, ?_, ?_⟩
    · rw [← hy1, processContribs_yield]
    · rw [← hw1]
      exact processContribs_warn_nodup _ []
    · intro n
      rw [← hw1, processContribs_warn_mem]
      simp
    · rw [← hy2, ← hy1]
      simp only [processContribs_yield]
    · rw [← hw2, List.eq_nil_iff_forall_not_mem]
      intro n hn
      rw [hs1u, processContribs_warn_mem] at hn
      obtain ⟨hn1, o, ho, hov⟩ := hn
      apply hn1
      rw [hstate]
      simp only [List.nil_append]
      rw [processContribs_warn_mem]
      exact ⟨by simp, o, ho, hov⟩

/-- C9, witness: the concrete hook table `hookEnvW` queried twice — the
invalid contribution is dropped but the same plugin's valid contribution and
the other plugin's contribution are yielded, one warning names the invalid
plugin, and the second query yields the same pairs with no warning. -/
theorem c9_validation_warnings_witness :
    pm_getattr envW hookEnvW s0W = Except.ok (y1W, ["ape_bad"], s1W)
    ∧ pm_getattr envW hookEnvW s1W = Except.ok (y1W, [], s1W)
    ∧ y1W = (expandHookResults hookEnvW).filterMap (fun pr =>
        if valid_impl pr.2 then some (clean_plugin_name pr.1, pr.2) else none)
    ∧ List.Nodup ["ape_bad"] := by
  have h1 : pm_getattr envW hookEnvW s0W = Except.ok (y1W, ["ape_bad"], s1W) := rfl
  have h2 : pm_getattr envW hookEnvW s1W = Except.ok (y1W, [], s1W) := rfl
  have h := c9_validation_warnings envW hookEnvW s0W y1W y1W ["ape_bad"] [] s1W s1W rfl h1 h2
  exact ⟨h1, h2, h.1, h.2.1⟩
